import Mathlib

/-!
# Nadaraya-Watson kernel regression (`src/nadaraya_watson.cpp`)

A shallow embedding of the exported function `nadaraya_watson` and the
properties of it that the specification states.

Modelling decisions.

* `double` is an arbitrary linear ordered field `α` with a floor function;
  the theorems instantiate it with the real numbers.  The definitions are
  computable (they run on `ℚ`).
* `std::exp`, `std::sqrt` and the constant `M_PI` come from `<cmath>`; they
  are parameters `exp`, `sqrt`, `pi` of the embedding, instantiated with
  `Real.exp`, `Real.sqrt`, `Real.pi` in the theorems.
* `Rcpp::sample(n, size, true)` is the random sampler of the host; it is a
  parameter `sample n size : σ → List Int × σ` over an explicit generator
  state `σ`, so that the number of draws a call makes is observable.
* `Rcpp::stop(msg)` raises an R error: the function returns
  `Except StopError _`, one constructor per `stop` site.
* `NumericVector` is `List α`, `NumericMatrix` is the list of its rows, the
  returned named `List` is an association list from names to vectors.
* `operator[]` of an Rcpp vector is unchecked.  A read is `readAt`, which
  returns `0` outside the vector (the C++ behaviour there is undefined).
* `Rcpp::sample(n, n, true)` returns `n` indices in `1..n`; this contract is the
  predicate `SamplerInRange`, assumed only where a property needs it.
* The division `sum_weighted_y / sum_weights` is unguarded.  With no observation
  it is `0 / 0`, which is NaN in `double` and `0` in a field; properties of the
  quotient are stated for `n >= 1`, where the divisor is positive.
* Where a claim is not about real arithmetic, the section on `double` adds what
  the real-number embedding leaves out: `underflowing` (the underflow of
  `std::exp`), `Dbl` and `validate` (a NaN argument at lines 51-62) and
  `round_to_double` with `upper_index_fl` (the rounding at lines 133-134).
* `int` is `Int`; `x.size()` and `x_eval.size()` are assumed to fit in an
  `int`, and under the validated `0 < conf_level < 1` the two
  `static_cast<int>` conversions are exact.
-/

namespace NadarayaWatson

/-- The four `stop(...)` sites of `nadaraya_watson` (lines 51-62). -/
inductive StopError where
  | xy_length
  | bandwidth
  | conf_level
  | x_eval_empty
  deriving DecidableEq, Repr

/-- The message passed to `stop` at each site. -/
def StopError.message : StopError → String
  | .xy_length => "The vectors 'x' and 'y' must be of the same length."
  | .bandwidth => "Bandwidth must be a positive value."
  | .conf_level => "Confidence level must be between 0 and 1."
  | .x_eval_empty => "The evaluation points 'x_eval' cannot be empty."

/-- An R named list of numeric vectors, as built by `List::create(Named(..) = ..)`. -/
abbrev RList (α : Type) := List (String × List α)

/-- Component `name` of a named list, if present (R's `res$name`). -/
def RList.field {α : Type} (r : RList α) (name : String) : Option (List α) :=
  (r.find? (fun e => e.1 == name)).map (fun e => e.2)

/-- Component `name` of the outcome of a call: `none` when the call failed or
the list has no such component. -/
def field {α : Type} (r : Except StopError (RList α)) (name : String) : Option (List α) :=
  match r with
  | .ok l => l.field name
  | .error _ => none

/-- Unchecked read `v[k]` with an `int` index. -/
def readAt {α : Type} [Zero α] (v : List α) (k : Int) : α :=
  if 0 ≤ k then v.getD k.toNat 0 else 0

section Code

variable {α : Type} [LinearOrderedField α]

/-- The inner loop over the observations (lines 73-80 and 112-119): returns
`(sum_weights, sum_weighted_y)` for the evaluation point `xe`. -/
def accumulate (exp : α → α) (norm_factor bandwidth : α) (x y : List α) (n : Nat) (xe : α) :
    α × α :=
  (List.range n).foldl
    (fun (acc : α × α) (i : Nat) =>
      let dist := (readAt x i - xe) / bandwidth
      let weight := norm_factor * exp (-0.5 * dist * dist)
      (acc.1 + weight, acc.2 + weight * readAt y i))
    (0, 0)

/-- The main estimation loop (lines 72-82): the vector `y_pred`. -/
def point_estimate (exp : α → α) (norm_factor bandwidth : α) (x y x_eval : List α)
    (n m : Nat) : List α :=
  (List.range m).map fun (j : Nat) =>
    let s := accumulate exp norm_factor bandwidth x y n (readAt x_eval j)
    s.2 / s.1

/-- One iteration of the bootstrap loop (lines 91-121): draws the indices,
gathers `x_boot`, `y_boot` and computes the row of predictions. -/
def bootstrap_iteration {σ : Type} (exp : α → α) (sample : Nat → Nat → σ → List Int × σ)
    (norm_factor bandwidth : α) (x y x_eval : List α) (n m : Nat) (rng : σ) : List α × σ :=
  let drawn := sample n n rng
  let indices := drawn.1
  let x_boot := (List.range n).map fun (i : Nat) => readAt x (readAt indices i - 1)
  let y_boot := (List.range n).map fun (i : Nat) => readAt y (readAt indices i - 1)
  let row := (List.range m).map fun (j : Nat) =>
    let s := (List.range n).foldl
      (fun (acc : α × α) (i : Nat) =>
        let dist := (readAt x_boot i - readAt x_eval j) / bandwidth
        let weight := norm_factor * exp (-0.5 * dist * dist)
        (acc.1 + weight, acc.2 + weight * readAt y_boot i))
      (0, 0)
    s.2 / s.1
  (row, drawn.2)

/-- The bootstrap loop (lines 90-122): the rows of `y_pred_boot`, replicate `0`
first, and the generator state after the last draw. -/
def bootstrap_loop {σ : Type} (exp : α → α) (sample : Nat → Nat → σ → List Int × σ)
    (norm_factor bandwidth : α) (x y x_eval : List α) (n m : Nat) (n_boot : Int) (rng : σ) :
    List (List α) × σ :=
  (List.range n_boot.toNat).foldl
    (fun (acc : List (List α) × σ) (_b : Nat) =>
      let it := bootstrap_iteration exp sample norm_factor bandwidth x y x_eval n m acc.2
      (acc.1 ++ [it.1], it.2))
    ([], rng)

/-- Column `j` of the bootstrap matrix, `y_pred_boot(_, j)`. -/
def column (y_pred_boot : List (List α)) (j : Nat) : List α :=
  y_pred_boot.map fun row => readAt row j

/-- The value of `lower_idx` after line 137. -/
def lower_index [FloorRing α] (n_boot : Int) (conf_level : α) : Int :=
  let lower_idx : Int := ⌊(n_boot : α) * (1 - conf_level) / 2.0⌋
  max 0 (min (n_boot - 1) lower_idx)

/-- The value of `upper_idx` after line 138. -/
def upper_index [FloorRing α] (n_boot : Int) (conf_level : α) : Int :=
  let upper_idx : Int := ⌈(n_boot : α) * (1 + conf_level) / 2.0⌉ - 1
  max 0 (min (n_boot - 1) upper_idx)

/-- The confidence-interval loop (lines 128-148): the vectors `lower` and `upper`. -/
def confidence_bounds [FloorRing α] (y_pred_boot : List (List α)) (m : Nat) (n_boot : Int)
    (conf_level : α) : List α × List α :=
  let boot_vals := fun j => (column y_pred_boot j).insertionSort (· ≤ ·)
  ((List.range m).map fun (j : Nat) => readAt (boot_vals j) (lower_index n_boot conf_level),
   (List.range m).map fun (j : Nat) => readAt (boot_vals j) (upper_index n_boot conf_level))

/-- The exported function `nadaraya_watson` (lines 49-157).  Returns the outcome
of the call and the state of the random generator after it. -/
def nadaraya_watson [FloorRing α] {σ : Type} (exp sqrt : α → α) (pi : α)
    (sample : Nat → Nat → σ → List Int × σ)
    (x y x_eval : List α) (bandwidth : α) (n_boot : Int) (conf_level : α) (rng : σ) :
    Except StopError (RList α) × σ :=
  if x.length ≠ y.length then (.error .xy_length, rng)
  else if bandwidth ≤ 0 then (.error .bandwidth, rng)
  else if conf_level ≤ 0 ∨ conf_level ≥ 1 then (.error .conf_level, rng)
  else if x_eval.length = 0 then (.error .x_eval_empty, rng)
  else
    let n := x.length
    let m := x_eval.length
    let norm_factor := 1.0 / (bandwidth * sqrt (2 * pi))
    let y_pred := point_estimate exp norm_factor bandwidth x y x_eval n m
    if n_boot > 0 then
      let boot := bootstrap_loop exp sample norm_factor bandwidth x y x_eval n m n_boot rng
      let ci := confidence_bounds boot.1 m n_boot conf_level
      (.ok [("y_pred", y_pred), ("lower", ci.1), ("upper", ci.2)], boot.2)
    else
      (.ok [("y_pred", y_pred)], rng)

end Code

/-- The gather loop of a bootstrap iteration (lines 105-108) for one vector:
`v_boot[i] = v[indices[i] - 1]` for `i = 0, ..., n - 1`. -/
def gather {α : Type} [Zero α] (v : List α) (indices : List Int) (n : Nat) : List α :=
  (List.range n).map fun (i : Nat) => readAt v (readAt indices i - 1)

/-- The state of the random generator when iteration `b` of the bootstrap loop starts:
every earlier iteration made one call `sample(n, n, true)`. -/
def state_before {σ : Type} (sample : Nat → Nat → σ → List Int × σ) (n : Nat) (b : Nat)
    (rng : σ) : σ :=
  (fun s => (sample n n s).2)^[b] rng

/-- The vector `indices` drawn in iteration `b` of the bootstrap loop. -/
def indices_of {σ : Type} (sample : Nat → Nat → σ → List Int × σ) (n : Nat) (b : Nat)
    (rng : σ) : List Int :=
  (sample n n (state_before sample n b rng)).1

/-- Entry `y_pred_boot(b, j)` of the bootstrap matrix. -/
def entry {α : Type} [Zero α] (y_pred_boot : List (List α)) (b j : Nat) : α :=
  readAt (y_pred_boot.getD b []) j

/-- An example sampler: from state `s` it returns the 1-based indices
`(s + i * i) mod n + 1` for `i = 0, ..., size - 1` and advances the state by one. -/
def rotating_sample (n size : Nat) (s : Nat) : List Int × Nat :=
  ((List.range size).map fun (i : Nat) => (((s + i * i) % n : Nat) : Int) + 1, s + 1)

section Double

variable {α : Type} [LinearOrderedField α]

/-- The function `std::exp` with its underflow on `double`: the result is `0` below `-746`
(the smallest positive `double` is `2^-1074`, about `exp(-744.44)`), and `exp` elsewhere. -/
def underflowing (exp : α → α) (t : α) : α :=
  if t < -746 then 0 else exp t

/-- A scalar `double` argument: a number or NaN. -/
inductive Dbl (α : Type) where
  | num (v : α)
  | nan

/-- The comparison `d <= c` on `double`: false when `d` is NaN. -/
def Dbl.le_const : Dbl α → α → Bool
  | .num v, c => decide (v ≤ c)
  | .nan, _ => false

/-- The comparison `d >= c` on `double`: false when `d` is NaN. -/
def Dbl.ge_const : Dbl α → α → Bool
  | .num v, c => decide (v ≥ c)
  | .nan, _ => false

/-- The comparison `d > c` on `double`: false when `d` is NaN. -/
def Dbl.gt_const : Dbl α → α → Bool
  | .num v, c => decide (v > c)
  | .nan, _ => false

/-- The comparison `d < c` on `double`: false when `d` is NaN. -/
def Dbl.lt_const : Dbl α → α → Bool
  | .num v, c => decide (v < c)
  | .nan, _ => false

/-- The four checks of lines 51-62 on `double` arguments: the error of the first check
that fails, or `none` when the call goes on to line 64. -/
def validate (x y x_eval : List α) (bandwidth conf_level : Dbl α) : Option StopError :=
  if x.length ≠ y.length then some .xy_length
  else if bandwidth.le_const 0 then some .bandwidth
  else if conf_level.le_const 0 || conf_level.ge_const 1 then some .conf_level
  else if x_eval.length = 0 then some .x_eval_empty
  else none

/-- The value of `lower_idx` after line 137 when every `double` operation of line 133 is
rounded by `fl`. -/
def lower_index_fl [FloorRing α] (fl : α → α) (n_boot : Int) (conf_level : α) : Int :=
  let lower_idx : Int := ⌊fl (fl ((n_boot : α) * fl (1 - conf_level)) / 2.0)⌋
  max 0 (min (n_boot - 1) lower_idx)

/-- The value of `upper_idx` after line 138 when every `double` operation of line 134 is
rounded by `fl`. -/
def upper_index_fl [FloorRing α] (fl : α → α) (n_boot : Int) (conf_level : α) : Int :=
  let upper_idx : Int := ⌈fl (fl ((n_boot : α) * fl (1 + conf_level)) / 2.0)⌉ - 1
  max 0 (min (n_boot - 1) upper_idx)

/-- The confidence-interval loop (lines 128-148) with the index arithmetic rounded by
`fl`. -/
def confidence_bounds_fl [FloorRing α] (fl : α → α) (y_pred_boot : List (List α)) (m : Nat)
    (n_boot : Int) (conf_level : α) : List α × List α :=
  let boot_vals := fun j => (column y_pred_boot j).insertionSort (· ≤ ·)
  ((List.range m).map fun (j : Nat) =>
      readAt (boot_vals j) (lower_index_fl fl n_boot conf_level),
   (List.range m).map fun (j : Nat) =>
      readAt (boot_vals j) (upper_index_fl fl n_boot conf_level))

end Double

/-! ## Reference definitions, written after the specification -/

section Reference

variable {α : Type} [LinearOrderedField α]

/-- The un-normalised Gaussian weight `K = exp(-0.5 * ((x_i - x_eval) / bandwidth)^2)`
of the glossary. -/
def gaussian_weight (exp : α → α) (bandwidth xi xe : α) : α :=
  exp (-0.5 * ((xi - xe) / bandwidth) ^ 2)

/-- The Nadaraya-Watson reference value `sum_i (K_i * y[i]) / sum_i K_i` at the
evaluation point `xe`, for `n` observations. -/
def nw_reference (exp : α → α) (x y : List α) (n : Nat) (bandwidth xe : α) : α :=
  (∑ i in Finset.range n, gaussian_weight exp bandwidth (x.getD i 0) xe * y.getD i 0) /
    (∑ i in Finset.range n, gaussian_weight exp bandwidth (x.getD i 0) xe)

/-- The data `v[p(0)], ..., v[p(n-1)]`: the vector `v` reordered by the permutation `p`. -/
def permute {n : Nat} (p : Equiv.Perm (Fin n)) (v : List α) : List α :=
  List.ofFn fun i : Fin n => v.getD (p i) 0

/-- The resampled data of the specification: the element of `v` selected by each drawn
1-based index, `v[idx - 1]`, in the order of the draws. -/
def resample (v : List α) (idx : List Int) : List α :=
  idx.map fun k => v.getD (k - 1).toNat 0

/-- The contract of the sampler for the call the code makes, `sample(n, n, true)`: it
returns `n` indices, each in `1..n`. -/
def SamplerInRange {σ : Type} (sample : Nat → Nat → σ → List Int × σ) : Prop :=
  ∀ (n : Nat) (s : σ), (sample n n s).1.length = n ∧
    ∀ k ∈ (sample n n s).1, 1 ≤ k ∧ k ≤ (n : Int)

/-- The smallest response `min_i y[i]` (`0` for the empty vector). -/
def list_min (y : List α) : α :=
  y.foldl min (y.headD 0)

/-- The largest response `max_i y[i]` (`0` for the empty vector). -/
def list_max (y : List α) : α :=
  y.foldl max (y.headD 0)

end Reference

/-! ## Auxiliary lemmas -/

section Lemmas

variable {α : Type} [LinearOrderedField α]

theorem readAt_natCast {β : Type} [Zero β] (v : List β) (i : Nat) :
    readAt v (i : Int) = v.getD i 0 := by
  simp [readAt]

theorem foldl_pair_sum (f g : Nat → α) (n : Nat) :
    (List.range n).foldl (fun (acc : α × α) (i : Nat) => (acc.1 + f i, acc.2 + g i)) (0, 0)
      = (∑ i in Finset.range n, f i, ∑ i in Finset.range n, g i) := by
  induction n with
  | zero => simp
  | succ k ih =>
    rw [List.range_succ, List.foldl_append, ih]
    simp [Finset.sum_range_succ]

theorem accumulate_eq_sum (exp : α → α) (nf bw : α) (x y : List α) (n : Nat) (xe : α) :
    accumulate exp nf bw x y n xe
      = (∑ i in Finset.range n, nf * gaussian_weight exp bw (x.getD i 0) xe,
         ∑ i in Finset.range n, nf * gaussian_weight exp bw (x.getD i 0) xe * y.getD i 0) := by
  unfold accumulate
  have h := foldl_pair_sum (fun i => nf * gaussian_weight exp bw (x.getD i 0) xe)
    (fun i => nf * gaussian_weight exp bw (x.getD i 0) xe * y.getD i 0) n
  rw [← h]
  congr 1
  funext acc i
  simp only [readAt_natCast, gaussian_weight]
  have e : -0.5 * ((x.getD i 0 - xe) / bw) * ((x.getD i 0 - xe) / bw)
      = -0.5 * ((x.getD i 0 - xe) / bw) ^ 2 := by ring
  rw [e]

theorem accumulate_ratio (exp : α → α) (nf bw : α) (x y : List α) (n : Nat) (xe : α)
    (hnf : nf ≠ 0) :
    (accumulate exp nf bw x y n xe).2 / (accumulate exp nf bw x y n xe).1
      = nw_reference exp x y n bw xe := by
  rw [accumulate_eq_sum]
  simp only [nw_reference, mul_assoc]
  rw [← Finset.mul_sum, ← Finset.mul_sum, mul_div_mul_left _ _ hnf]

theorem point_estimate_length (exp : α → α) (nf bw : α) (x y x_eval : List α) (n m : Nat) :
    (point_estimate exp nf bw x y x_eval n m).length = m := by
  simp [point_estimate]

theorem point_estimate_getD (exp : α → α) (nf bw : α) (x y x_eval : List α) (n m j : Nat)
    (hj : j < m) :
    (point_estimate exp nf bw x y x_eval n m).getD j 0
      = (accumulate exp nf bw x y n (x_eval.getD j 0)).2 /
        (accumulate exp nf bw x y n (x_eval.getD j 0)).1 := by
  simp [point_estimate, List.getD_eq_getElem?_getD, List.getElem?_map, List.getElem?_range hj,
    readAt_natCast]

theorem nadaraya_watson_of_valid [FloorRing α] {σ : Type} (exp sqrt : α → α) (pi : α)
    (sample : Nat → Nat → σ → List Int × σ) (x y x_eval : List α) (bandwidth : α)
    (n_boot : Int) (conf_level : α) (rng : σ)
    (hxy : x.length = y.length) (hb : 0 < bandwidth) (hc0 : 0 < conf_level)
    (hc1 : conf_level < 1) (hm : 1 ≤ x_eval.length) :
    nadaraya_watson exp sqrt pi sample x y x_eval bandwidth n_boot conf_level rng
      = if n_boot > 0 then
          (.ok [("y_pred", point_estimate exp (1.0 / (bandwidth * sqrt (2 * pi))) bandwidth
                  x y x_eval x.length x_eval.length),
                ("lower", (confidence_bounds (bootstrap_loop exp sample
                  (1.0 / (bandwidth * sqrt (2 * pi))) bandwidth x y x_eval x.length
                  x_eval.length n_boot rng).1 x_eval.length n_boot conf_level).1),
                ("upper", (confidence_bounds (bootstrap_loop exp sample
                  (1.0 / (bandwidth * sqrt (2 * pi))) bandwidth x y x_eval x.length
                  x_eval.length n_boot rng).1 x_eval.length n_boot conf_level).2)],
           (bootstrap_loop exp sample (1.0 / (bandwidth * sqrt (2 * pi))) bandwidth x y x_eval
              x.length x_eval.length n_boot rng).2)
        else
          (.ok [("y_pred", point_estimate exp (1.0 / (bandwidth * sqrt (2 * pi))) bandwidth
                  x y x_eval x.length x_eval.length)], rng) := by
  unfold nadaraya_watson
  have h1 : ¬ bandwidth ≤ 0 := not_le.2 hb
  have h2 : ¬ (conf_level ≤ 0 ∨ conf_level ≥ 1) := by
    rintro (h | h)
    · exact absurd hc0 (not_lt.2 h)
    · exact absurd hc1 (not_lt.2 h)
  have h3 : ¬ x_eval.length = 0 := by omega
  simp only [ne_eq, hxy, not_true_eq_false, if_false, h1, h2, h3]

theorem field_y_pred_of_valid [FloorRing α] {σ : Type} (exp sqrt : α → α) (pi : α)
    (sample : Nat → Nat → σ → List Int × σ) (x y x_eval : List α) (bandwidth : α)
    (n_boot : Int) (conf_level : α) (rng : σ)
    (hxy : x.length = y.length) (hb : 0 < bandwidth) (hc0 : 0 < conf_level)
    (hc1 : conf_level < 1) (hm : 1 ≤ x_eval.length) :
    field (nadaraya_watson exp sqrt pi sample x y x_eval bandwidth n_boot conf_level rng).1
        "y_pred"
      = some (point_estimate exp (1.0 / (bandwidth * sqrt (2 * pi))) bandwidth
          x y x_eval x.length x_eval.length) := by
  rw [nadaraya_watson_of_valid exp sqrt pi sample x y x_eval bandwidth n_boot conf_level rng
    hxy hb hc0 hc1 hm]
  split <;> simp [field, RList.field]

theorem real_norm_factor_ne_zero (bandwidth : ℝ) (hb : 0 < bandwidth) :
    (1.0 : ℝ) / (bandwidth * Real.sqrt (2 * Real.pi)) ≠ 0 := by
  have h : 0 < Real.sqrt (2 * Real.pi) := Real.sqrt_pos.2 (by positivity)
  have : 0 < bandwidth * Real.sqrt (2 * Real.pi) := mul_pos hb h
  exact div_ne_zero (by norm_num) this.ne'

theorem point_estimate_eq_map_reference (exp : α → α) (nf bw : α) (x y x_eval : List α)
    (n m : Nat) (hnf : nf ≠ 0) :
    point_estimate exp nf bw x y x_eval n m
      = (List.range m).map fun (j : Nat) => nw_reference exp x y n bw (x_eval.getD j 0) := by
  unfold point_estimate
  apply List.map_congr_left
  intro j _
  simp only [readAt_natCast]
  exact accumulate_ratio exp nf bw x y n _ hnf

theorem getD_map_range (f : Nat → α) (m j : Nat) (hj : j < m) :
    ((List.range m).map f).getD j 0 = f j := by
  simp [List.getD_eq_getElem?_getD, List.getElem?_map, List.getElem?_range hj]

theorem nadaraya_watson_ok_iff [FloorRing α] {σ : Type} (exp sqrt : α → α) (pi : α)
    (sample : Nat → Nat → σ → List Int × σ) (x y x_eval : List α) (bandwidth : α)
    (n_boot : Int) (conf_level : α) (rng : σ) :
    (∃ res, (nadaraya_watson exp sqrt pi sample x y x_eval bandwidth n_boot conf_level rng).1
        = .ok res) ↔
      (x.length = y.length ∧ 0 < bandwidth ∧ (0 < conf_level ∧ conf_level < 1) ∧
        1 ≤ x_eval.length) := by
  constructor
  · rintro ⟨res, h⟩
    unfold nadaraya_watson at h
    split_ifs at h with h1 h2 h3 h4 h5
    · exact ⟨not_not.1 h1, not_le.1 h2, ⟨not_le.1 fun hh => h3 (Or.inl hh),
        not_le.1 fun hh => h3 (Or.inr hh)⟩, by omega⟩
    · exact ⟨not_not.1 h1, not_le.1 h2, ⟨not_le.1 fun hh => h3 (Or.inl hh),
        not_le.1 fun hh => h3 (Or.inr hh)⟩, by omega⟩
  · rintro ⟨hxy, hb, ⟨hc0, hc1⟩, hm⟩
    rw [nadaraya_watson_of_valid exp sqrt pi sample x y x_eval bandwidth n_boot conf_level rng
      hxy hb hc0 hc1 hm]
    split <;> exact ⟨_, rfl⟩

theorem nadaraya_watson_error_state [FloorRing α] {σ : Type} (exp sqrt : α → α) (pi : α)
    (sample : Nat → Nat → σ → List Int × σ) (x y x_eval : List α) (bandwidth : α)
    (n_boot : Int) (conf_level : α) (rng : σ) (e : StopError)
    (h : (nadaraya_watson exp sqrt pi sample x y x_eval bandwidth n_boot conf_level rng).1
      = .error e) :
    (nadaraya_watson exp sqrt pi sample x y x_eval bandwidth n_boot conf_level rng).2 = rng := by
  unfold nadaraya_watson at h ⊢
  split_ifs at h ⊢ <;> rfl

theorem foldl_rows_length {σ β : Type} (g : σ → β × σ) (l : List Nat) (init : List β × σ) :
    (l.foldl (fun (acc : List β × σ) (_b : Nat) => (acc.1 ++ [(g acc.2).1], (g acc.2).2))
      init).1.length = init.1.length + l.length := by
  induction l generalizing init with
  | nil => simp
  | cons b t ih =>
    rw [List.foldl_cons, ih]
    simp only [List.length_append, List.length_singleton, List.length_cons, List.length_nil]
    omega

theorem bootstrap_loop_length {σ : Type} (exp : α → α) (sample : Nat → Nat → σ → List Int × σ)
    (nf bw : α) (x y x_eval : List α) (n m : Nat) (n_boot : Int) (rng : σ) :
    (bootstrap_loop exp sample nf bw x y x_eval n m n_boot rng).1.length = n_boot.toNat := by
  unfold bootstrap_loop
  have h := foldl_rows_length (bootstrap_iteration exp sample nf bw x y x_eval n m)
    (List.range n_boot.toNat) ([], rng)
  simpa using h

theorem column_length (M : List (List α)) (j : Nat) : (column M j).length = M.length := by
  simp [column]

theorem confidence_bounds_length [FloorRing α] (M : List (List α)) (m : Nat) (n_boot : Int)
    (conf_level : α) :
    (confidence_bounds M m n_boot conf_level).1.length = m ∧
    (confidence_bounds M m n_boot conf_level).2.length = m := by
  simp [confidence_bounds]

theorem confidence_bounds_getD [FloorRing α] (M : List (List α)) (m : Nat) (n_boot : Int)
    (conf_level : α) (j : Nat) (hj : j < m) :
    (confidence_bounds M m n_boot conf_level).1.getD j 0
        = readAt ((column M j).insertionSort (· ≤ ·)) (lower_index n_boot conf_level) ∧
    (confidence_bounds M m n_boot conf_level).2.getD j 0
        = readAt ((column M j).insertionSort (· ≤ ·)) (upper_index n_boot conf_level) := by
  unfold confidence_bounds
  exact ⟨getD_map_range _ _ _ hj, getD_map_range _ _ _ hj⟩

theorem lower_index_bounds [FloorRing α] (n_boot : Int) (conf_level : α) (hnb : 0 < n_boot) :
    0 ≤ lower_index n_boot conf_level ∧ lower_index n_boot conf_level ≤ n_boot - 1 := by
  unfold lower_index
  exact ⟨le_max_left _ _, max_le (by omega) (min_le_left _ _)⟩

theorem upper_index_bounds [FloorRing α] (n_boot : Int) (conf_level : α) (hnb : 0 < n_boot) :
    0 ≤ upper_index n_boot conf_level ∧ upper_index n_boot conf_level ≤ n_boot - 1 := by
  unfold upper_index
  exact ⟨le_max_left _ _, max_le (by omega) (min_le_left _ _)⟩

theorem lower_index_le_upper_index [FloorRing α] (n_boot : Int) (conf_level : α)
    (hnb : 0 < n_boot) (hc0 : 0 < conf_level) :
    lower_index n_boot conf_level ≤ upper_index n_boot conf_level := by
  unfold lower_index upper_index
  apply max_le_max le_rfl
  apply min_le_min le_rfl
  rw [Int.le_sub_one_iff, Int.lt_ceil]
  have hnb' : (0 : α) < (n_boot : α) := by exact_mod_cast hnb
  calc ((⌊(n_boot : α) * (1 - conf_level) / 2.0⌋ : Int) : α)
      ≤ (n_boot : α) * (1 - conf_level) / 2.0 := Int.floor_le _
    _ < (n_boot : α) * (1 + conf_level) / 2.0 := by
        have h2 : (0 : α) < 2.0 := by norm_num
        apply div_lt_div_of_pos_right _ h2
        apply mul_lt_mul_of_pos_left _ hnb'
        linarith

theorem fields_of_valid_boot [FloorRing α] {σ : Type} (exp sqrt : α → α) (pi : α)
    (sample : Nat → Nat → σ → List Int × σ) (x y x_eval : List α) (bandwidth : α)
    (n_boot : Int) (conf_level : α) (rng : σ)
    (hxy : x.length = y.length) (hb : 0 < bandwidth) (hc0 : 0 < conf_level)
    (hc1 : conf_level < 1) (hm : 1 ≤ x_eval.length) (hnb : 0 < n_boot) :
    field (nadaraya_watson exp sqrt pi sample x y x_eval bandwidth n_boot conf_level rng).1
        "lower"
      = some (confidence_bounds (bootstrap_loop exp sample
          (1.0 / (bandwidth * sqrt (2 * pi))) bandwidth x y x_eval x.length
          x_eval.length n_boot rng).1 x_eval.length n_boot conf_level).1 ∧
    field (nadaraya_watson exp sqrt pi sample x y x_eval bandwidth n_boot conf_level rng).1
        "upper"
      = some (confidence_bounds (bootstrap_loop exp sample
          (1.0 / (bandwidth * sqrt (2 * pi))) bandwidth x y x_eval x.length
          x_eval.length n_boot rng).1 x_eval.length n_boot conf_level).2 := by
  rw [nadaraya_watson_of_valid exp sqrt pi sample x y x_eval bandwidth n_boot conf_level rng
    hxy hb hc0 hc1 hm, if_pos hnb]
  constructor <;> simp [field, RList.field]

theorem readAt_of_nonneg {β : Type} [Zero β] (v : List β) (k : Int) (hk : 0 ≤ k) :
    readAt v k = v.getD k.toNat 0 := by
  simp [readAt, hk]

theorem sorted_column_length {σ : Type} (exp : α → α) (sample : Nat → Nat → σ → List Int × σ)
    (nf bw : α) (x y x_eval : List α) (n m : Nat) (n_boot : Int) (rng : σ) (j : Nat) :
    ((column (bootstrap_loop exp sample nf bw x y x_eval n m n_boot rng).1 j).insertionSort
      (· ≤ ·)).length = n_boot.toNat := by
  rw [List.length_insertionSort, column_length, bootstrap_loop_length]

end Lemmas

/-! ## The point estimate -/

section PointEstimate

theorem real_weight_sum_pos (x : List ℝ) (n : Nat) (bandwidth xe : ℝ) (hn : 1 ≤ n) :
    0 < ∑ i in Finset.range n, gaussian_weight Real.exp bandwidth (x.getD i 0) xe := by
  apply Finset.sum_pos
  · intro i _
    exact Real.exp_pos _
  · exact Finset.nonempty_range_iff.2 (by omega)

theorem nw_reference_permute {n : Nat} (p : Equiv.Perm (Fin n)) (x y : List ℝ)
    (bandwidth xe : ℝ) :
    nw_reference Real.exp (permute p x) (permute p y) n bandwidth xe
      = nw_reference Real.exp x y n bandwidth xe := by
  have hget : ∀ (v : List ℝ) (i : Fin n), (permute p v).getD i 0 = v.getD (p i) 0 := by
    intro v i
    simp [permute, List.getD_eq_getElem?_getD, List.getElem?_ofFn]
  unfold nw_reference
  rw [Finset.sum_range, Finset.sum_range, Finset.sum_range, Finset.sum_range]
  simp only [hget]
  rw [Equiv.sum_comp p (fun i : Fin n =>
        gaussian_weight Real.exp bandwidth (x.getD i 0) xe * y.getD i 0),
      Equiv.sum_comp p (fun i : Fin n => gaussian_weight Real.exp bandwidth (x.getD i 0) xe)]

/-- C1: for a valid call, every `y_pred[j]` is the Nadaraya-Watson reference value
`sum_i (K_ij * y[i]) / sum_i K_ij` with the un-normalised Gaussian weight `K_ij`; the
factor `1 / (bandwidth * sqrt(2 * pi))` cancels. -/
theorem y_pred_eq_reference {σ : Type} (sample : Nat → Nat → σ → List Int × σ)
    (x y x_eval : List ℝ) (bandwidth : ℝ) (n_boot : Int) (conf_level : ℝ) (rng : σ)
    (hxy : x.length = y.length) (_hn : 1 ≤ x.length) (hb : 0 < bandwidth)
    (hm : 1 ≤ x_eval.length) (hc0 : 0 < conf_level) (hc1 : conf_level < 1) :
    ∃ y_pred : List ℝ,
      field (nadaraya_watson Real.exp Real.sqrt Real.pi sample x y x_eval bandwidth n_boot
        conf_level rng).1 "y_pred" = some y_pred ∧
      y_pred.length = x_eval.length ∧
      ∀ j, j < x_eval.length →
        y_pred.getD j 0 = nw_reference Real.exp x y x.length bandwidth (x_eval.getD j 0) := by
  refine ⟨_, field_y_pred_of_valid Real.exp Real.sqrt Real.pi sample x y x_eval bandwidth n_boot
    conf_level rng hxy hb hc0 hc1 hm, point_estimate_length _ _ _ _ _ _ _ _, ?_⟩
  intro j hj
  rw [point_estimate_getD _ _ _ _ _ _ _ _ _ hj,
    accumulate_ratio _ _ _ _ _ _ _ (real_norm_factor_ne_zero bandwidth hb)]

theorem y_pred_eq_reference_witness :
    ∃ y_pred : List ℝ,
      field (nadaraya_watson Real.exp Real.sqrt Real.pi rotating_sample [1, 2, 4] [3, 5, 6]
        [2, 3] 1 2 0.9 (0 : Nat)).1 "y_pred" = some y_pred ∧
      y_pred.length = ([2, 3] : List ℝ).length ∧
      ∀ j, j < ([2, 3] : List ℝ).length →
        y_pred.getD j 0
          = nw_reference Real.exp [1, 2, 4] [3, 5, 6] ([1, 2, 4] : List ℝ).length 1
              (([2, 3] : List ℝ).getD j 0) :=
  y_pred_eq_reference rotating_sample [1, 2, 4] [3, 5, 6] [2, 3] 1 2 0.9 0 rfl (by simp)
    (by norm_num) (by simp) (by norm_num) (by norm_num)

/-- C2: constant responses `y[i] = c` give `y_pred[j] = c` at every evaluation point,
for `n_boot = 0`, any `x`, any non-empty `x_eval` and any `bandwidth > 0`. -/
theorem y_pred_of_constant_y {σ : Type} (sample : Nat → Nat → σ → List Int × σ)
    (c : ℝ) (x y x_eval : List ℝ) (bandwidth : ℝ) (conf_level : ℝ) (rng : σ)
    (hxy : x.length = y.length) (hn : 1 ≤ x.length) (hy : ∀ v ∈ y, v = c)
    (hb : 0 < bandwidth) (hm : 1 ≤ x_eval.length) (hc0 : 0 < conf_level)
    (hc1 : conf_level < 1) :
    ∃ y_pred : List ℝ,
      field (nadaraya_watson Real.exp Real.sqrt Real.pi sample x y x_eval bandwidth 0
        conf_level rng).1 "y_pred" = some y_pred ∧
      y_pred.length = x_eval.length ∧
      ∀ j, j < x_eval.length → y_pred.getD j 0 = c := by
  refine ⟨_, field_y_pred_of_valid Real.exp Real.sqrt Real.pi sample x y x_eval bandwidth 0
    conf_level rng hxy hb hc0 hc1 hm, point_estimate_length _ _ _ _ _ _ _ _, ?_⟩
  intro j hj
  rw [point_estimate_eq_map_reference _ _ _ _ _ _ _ _ (real_norm_factor_ne_zero bandwidth hb),
    getD_map_range _ _ _ hj]
  unfold nw_reference
  have hpos := real_weight_sum_pos x x.length bandwidth (x_eval.getD j 0) hn
  have hyi : ∀ i ∈ Finset.range x.length, gaussian_weight Real.exp bandwidth (x.getD i 0)
      (x_eval.getD j 0) * y.getD i 0
        = gaussian_weight Real.exp bandwidth (x.getD i 0) (x_eval.getD j 0) * c := by
    intro i hi
    have hi' : i < y.length := by
      rw [← hxy]
      exact Finset.mem_range.1 hi
    rw [List.getD_eq_getElem _ _ hi', hy _ (List.getElem_mem hi')]
  rw [Finset.sum_congr rfl hyi, ← Finset.sum_mul, mul_comm, mul_div_assoc, div_self hpos.ne',
    mul_one]

theorem y_pred_of_constant_y_witness :
    ∃ y_pred : List ℝ,
      field (nadaraya_watson Real.exp Real.sqrt Real.pi rotating_sample [1, 2, 4] [7, 7, 7]
        [0, 3] 2 0 0.95 (0 : Nat)).1 "y_pred" = some y_pred ∧
      y_pred.length = ([0, 3] : List ℝ).length ∧
      ∀ j, j < ([0, 3] : List ℝ).length → y_pred.getD j 0 = 7 :=
  y_pred_of_constant_y rotating_sample 7 [1, 2, 4] [7, 7, 7] [0, 3] 2 0.95 0 rfl (by simp)
    (by simp) (by norm_num) (by simp) (by norm_num) (by norm_num)

/-- C3, amended: in exact real arithmetic, where the kernel weight `exp(..)` is positive
and does not underflow, with a single observation `x = [x0]`, `y = [y0]` every prediction
is `y0`, whatever `x0`, the evaluation points and the positive bandwidth are. -/
theorem y_pred_of_single_observation {σ : Type} (sample : Nat → Nat → σ → List Int × σ)
    (x0 y0 : ℝ) (x_eval : List ℝ) (bandwidth : ℝ) (n_boot : Int) (conf_level : ℝ) (rng : σ)
    (hb : 0 < bandwidth) (hm : 1 ≤ x_eval.length) (hc0 : 0 < conf_level)
    (hc1 : conf_level < 1) :
    ∃ y_pred : List ℝ,
      field (nadaraya_watson Real.exp Real.sqrt Real.pi sample [x0] [y0] x_eval bandwidth
        n_boot conf_level rng).1 "y_pred" = some y_pred ∧
      y_pred.length = x_eval.length ∧
      ∀ j, j < x_eval.length → y_pred.getD j 0 = y0 := by
  refine ⟨_, field_y_pred_of_valid Real.exp Real.sqrt Real.pi sample [x0] [y0] x_eval bandwidth
    n_boot conf_level rng rfl hb hc0 hc1 hm, point_estimate_length _ _ _ _ _ _ _ _, ?_⟩
  intro j hj
  rw [point_estimate_eq_map_reference _ _ _ _ _ _ _ _ (real_norm_factor_ne_zero bandwidth hb),
    getD_map_range _ _ _ hj]
  have hK : gaussian_weight Real.exp bandwidth x0 (x_eval.getD j 0) ≠ 0 :=
    (Real.exp_pos _).ne'
  simp only [nw_reference, List.length_singleton, Finset.sum_range_one, List.getD_cons_zero]
  rw [mul_comm, mul_div_assoc, div_self hK, mul_one]

theorem y_pred_of_single_observation_witness :
    ∃ y_pred : List ℝ,
      field (nadaraya_watson Real.exp Real.sqrt Real.pi rotating_sample [10] [2] [10, 11] 0.5
        3 0.5 (0 : Nat)).1 "y_pred" = some y_pred ∧
      y_pred.length = ([10, 11] : List ℝ).length ∧
      ∀ j, j < ([10, 11] : List ℝ).length → y_pred.getD j 0 = 2 :=
  y_pred_of_single_observation rotating_sample 10 2 [10, 11] 0.5 3 0.5 0 (by norm_num)
    (by simp) (by norm_num) (by norm_num)

/-- C4: permuting the pairs `(x[i], y[i])` by a permutation `p` of `0..n-1`, the same in
`x` and in `y`, leaves `y_pred` unchanged. -/
theorem y_pred_permutation_invariant {σ : Type} (sample : Nat → Nat → σ → List Int × σ)
    {n : Nat} (p : Equiv.Perm (Fin n)) (x y x_eval : List ℝ) (bandwidth : ℝ) (n_boot : Int)
    (conf_level : ℝ) (rng : σ)
    (hx : x.length = n) (hy : y.length = n) (hb : 0 < bandwidth) (hm : 1 ≤ x_eval.length)
    (hc0 : 0 < conf_level) (hc1 : conf_level < 1) :
    ∃ y_pred : List ℝ,
      field (nadaraya_watson Real.exp Real.sqrt Real.pi sample x y x_eval bandwidth n_boot
        conf_level rng).1 "y_pred" = some y_pred ∧
      field (nadaraya_watson Real.exp Real.sqrt Real.pi sample (permute p x) (permute p y)
        x_eval bandwidth n_boot conf_level rng).1 "y_pred" = some y_pred := by
  have hpx : (permute p x).length = n := by simp [permute]
  have hpy : (permute p y).length = n := by simp [permute]
  refine ⟨_, field_y_pred_of_valid Real.exp Real.sqrt Real.pi sample x y x_eval bandwidth n_boot
    conf_level rng (hx.trans hy.symm) hb hc0 hc1 hm, ?_⟩
  rw [field_y_pred_of_valid Real.exp Real.sqrt Real.pi sample (permute p x) (permute p y) x_eval
    bandwidth n_boot conf_level rng (hpx.trans hpy.symm) hb hc0 hc1 hm]
  have hnf := real_norm_factor_ne_zero bandwidth hb
  rw [point_estimate_eq_map_reference _ _ _ _ _ _ _ _ hnf,
    point_estimate_eq_map_reference _ _ _ _ _ _ _ _ hnf, hpx, hx]
  simp only [nw_reference_permute]

theorem y_pred_permutation_invariant_witness :
    ∃ y_pred : List ℝ,
      field (nadaraya_watson Real.exp Real.sqrt Real.pi rotating_sample [1, 2, 4] [3, 5, 6]
        [2, 3] 1 0 0.9 (0 : Nat)).1 "y_pred" = some y_pred ∧
      field (nadaraya_watson Real.exp Real.sqrt Real.pi rotating_sample
        (permute (Equiv.swap (0 : Fin 3) 2) [1, 2, 4]) (permute (Equiv.swap (0 : Fin 3) 2) [3, 5, 6])
        [2, 3] 1 0 0.9 (0 : Nat)).1 "y_pred" = some y_pred :=
  y_pred_permutation_invariant rotating_sample (Equiv.swap (0 : Fin 3) 2) [1, 2, 4] [3, 5, 6]
    [2, 3] 1 0 0.9 0 rfl rfl (by norm_num) (by simp) (by norm_num) (by norm_num)

end PointEstimate

/-! ## Validation of the arguments and shape of the result -/

section Validation

/-- C5, as stated, fails in two ways.  With `x = [1]`, `y = []`, `x_eval = []` and
`bandwidth = 0` the bandwidth is not positive and `x_eval` is empty, yet the call fails
with the length error of line 52, neither with the bandwidth error nor with the `x_eval`
error.  And a NaN `bandwidth` or `conf_level` passes the four checks of lines 51-62,
because `NaN <= 0` and `NaN >= 1` are false, although `bandwidth > 0` and
`0 < conf_level < 1` do not hold for NaN. -/
theorem bandwidth_error_not_unconditional :
    ((0 : ℝ) ≤ 0 ∧ ([] : List ℝ).length = 0) ∧
    (nadaraya_watson Real.exp Real.sqrt Real.pi rotating_sample [1] [] [] 0 0 0.95 (0 : Nat)).1
      = .error .xy_length ∧
    (nadaraya_watson Real.exp Real.sqrt Real.pi rotating_sample [1] [] [] 0 0 0.95 (0 : Nat)).1
      ≠ .error .bandwidth ∧
    (nadaraya_watson Real.exp Real.sqrt Real.pi rotating_sample [1] [] [] 0 0 0.95 (0 : Nat)).1
      ≠ .error .x_eval_empty ∧
    (validate ([1] : List ℝ) [2] [3] .nan (.num 0.95) = none ∧
      Dbl.gt_const (.nan : Dbl ℝ) 0 = false) ∧
    (validate ([1] : List ℝ) [2] [3] (.num 1) .nan = none ∧
      (Dbl.gt_const (.nan : Dbl ℝ) 0 && Dbl.lt_const (.nan : Dbl ℝ) 1) = false) := by
  refine ⟨⟨le_refl 0, rfl⟩, ?_, ?_, ?_, ⟨?_, rfl⟩, ⟨?_, rfl⟩⟩
  · simp [nadaraya_watson]
  · simp [nadaraya_watson]
  · simp [nadaraya_watson]
  · simp [validate, Dbl.le_const, Dbl.ge_const]
    norm_num
  · simp [validate, Dbl.le_const, Dbl.ge_const]

/-- C5, amended: for a `bandwidth` and a `conf_level` that are numbers (not NaN), the
call returns a result if and only if `len(x) = len(y)`,
`bandwidth > 0`, `0 < conf_level < 1` and `len(x_eval) >= 1`; the checks run in this order
and the first that fails decides the error, so `bandwidth <= 0` gives the bandwidth error
when the lengths agree, and an empty `x_eval` gives the `x_eval` error when the three
earlier checks pass; a failing call yields no component of a result and leaves the random
generator untouched (no resample is drawn). -/
theorem success_iff_valid_and_fail_fast {σ : Type} (sample : Nat → Nat → σ → List Int × σ)
    (x y x_eval : List ℝ) (bandwidth : ℝ) (n_boot : Int) (conf_level : ℝ) (rng : σ) :
    ((∃ res, (nadaraya_watson Real.exp Real.sqrt Real.pi sample x y x_eval bandwidth n_boot
        conf_level rng).1 = .ok res) ↔
      (x.length = y.length ∧ 0 < bandwidth ∧ (0 < conf_level ∧ conf_level < 1) ∧
        1 ≤ x_eval.length)) ∧
    (x.length = y.length → bandwidth ≤ 0 →
      (nadaraya_watson Real.exp Real.sqrt Real.pi sample x y x_eval bandwidth n_boot
        conf_level rng).1 = .error .bandwidth) ∧
    (x.length = y.length → 0 < bandwidth → 0 < conf_level → conf_level < 1 →
      x_eval.length = 0 →
      (nadaraya_watson Real.exp Real.sqrt Real.pi sample x y x_eval bandwidth n_boot
        conf_level rng).1 = .error .x_eval_empty) ∧
    (∀ e, (nadaraya_watson Real.exp Real.sqrt Real.pi sample x y x_eval bandwidth n_boot
        conf_level rng).1 = .error e →
      (nadaraya_watson Real.exp Real.sqrt Real.pi sample x y x_eval bandwidth n_boot
        conf_level rng).2 = rng ∧
      ∀ name, field (nadaraya_watson Real.exp Real.sqrt Real.pi sample x y x_eval bandwidth
        n_boot conf_level rng).1 name = none) := by
  refine ⟨nadaraya_watson_ok_iff _ _ _ _ _ _ _ _ _ _ _, ?_, ?_, ?_⟩
  · intro hxy hb
    simp [nadaraya_watson, hxy, hb]
  · intro hxy hb hc0 hc1 hm
    simp [nadaraya_watson, hxy, not_le.2 hb, not_le.2 hc0, not_le.2 hc1, hm]
  · intro e he
    refine ⟨nadaraya_watson_error_state _ _ _ _ _ _ _ _ _ _ _ e he, ?_⟩
    intro name
    rw [he]
    rfl

theorem success_iff_valid_and_fail_fast_witness :
    (∃ res, (nadaraya_watson Real.exp Real.sqrt Real.pi rotating_sample [1, 2] [3, 4] [1] 1 0
      0.95 (0 : Nat)).1 = .ok res) ∧
    (nadaraya_watson Real.exp Real.sqrt Real.pi rotating_sample [1] [2] [] 0 3 2 (0 : Nat)).1
      = .error .bandwidth ∧
    (nadaraya_watson Real.exp Real.sqrt Real.pi rotating_sample [1] [2] [] 1 3 0.95
      (0 : Nat)).1 = .error .x_eval_empty :=
  ⟨(success_iff_valid_and_fail_fast rotating_sample [1, 2] [3, 4] [1] 1 0 0.95 0).1.2
      ⟨rfl, by norm_num, ⟨by norm_num, by norm_num⟩, by simp⟩,
    (success_iff_valid_and_fail_fast rotating_sample [1] [2] [] 0 3 2 0).2.1 rfl (le_refl 0),
    (success_iff_valid_and_fail_fast rotating_sample [1] [2] [] 1 3 0.95 0).2.2.1 rfl
      (by norm_num) (by norm_num) (by norm_num) rfl⟩

/-- C6: whenever `len(x) != len(y)` the call fails with the error "The vectors 'x' and
'y' must be of the same length.", whatever the other arguments are (also with a
non-positive bandwidth, a confidence level outside `(0, 1)` or an empty `x_eval`), and
nothing is drawn from the random generator. -/
theorem length_mismatch_fails_first {σ : Type} (sample : Nat → Nat → σ → List Int × σ)
    (x y x_eval : List ℝ) (bandwidth : ℝ) (n_boot : Int) (conf_level : ℝ) (rng : σ)
    (hxy : x.length ≠ y.length) :
    nadaraya_watson Real.exp Real.sqrt Real.pi sample x y x_eval bandwidth n_boot conf_level rng
      = (.error .xy_length, rng) ∧
    StopError.message .xy_length = "The vectors 'x' and 'y' must be of the same length." := by
  constructor
  · simp [nadaraya_watson, hxy]
  · rfl

theorem length_mismatch_fails_first_witness :
    nadaraya_watson Real.exp Real.sqrt Real.pi rotating_sample [1, 2] [5] [] (-1) 10 2
        (0 : Nat)
      = (.error .xy_length, 0) ∧
    StopError.message .xy_length = "The vectors 'x' and 'y' must be of the same length." :=
  length_mismatch_fails_first rotating_sample [1, 2] [5] [] (-1) 10 2 0 (by simp)

/-- C7: with `len(x) = len(y)` and `bandwidth > 0`, every `conf_level <= 0` or `>= 1`
(0 and 1 included) makes the call fail with the error "Confidence level must be between 0
and 1.", for every `n_boot`, also `n_boot = 0`. -/
theorem invalid_conf_level_fails {σ : Type} (sample : Nat → Nat → σ → List Int × σ)
    (x y x_eval : List ℝ) (bandwidth : ℝ) (n_boot : Int) (conf_level : ℝ) (rng : σ)
    (hxy : x.length = y.length) (hb : 0 < bandwidth)
    (hc : conf_level ≤ 0 ∨ conf_level ≥ 1) :
    nadaraya_watson Real.exp Real.sqrt Real.pi sample x y x_eval bandwidth n_boot conf_level rng
      = (.error .conf_level, rng) ∧
    StopError.message .conf_level = "Confidence level must be between 0 and 1." := by
  constructor
  · simp [nadaraya_watson, hxy, not_le.2 hb, hc]
  · rfl

theorem invalid_conf_level_fails_witness :
    nadaraya_watson Real.exp Real.sqrt Real.pi rotating_sample [1, 2] [5, 6] [3] 1 0 1
        (0 : Nat)
      = (.error .conf_level, 0) ∧
    StopError.message .conf_level = "Confidence level must be between 0 and 1." :=
  invalid_conf_level_fails rotating_sample [1, 2] [5, 6] [3] 1 0 1 0 rfl (by norm_num)
    (Or.inr (le_refl 1))

/-- C8: a successful call returns `y_pred` of length `len(x_eval)`; when `n_boot > 0` the
result has exactly the components `y_pred`, `lower`, `upper`, the last two of length
`len(x_eval)`; when `n_boot <= 0` it has the single component `y_pred`, and no `lower` or
`upper`. -/
theorem result_shape {σ : Type} (sample : Nat → Nat → σ → List Int × σ)
    (x y x_eval : List ℝ) (bandwidth : ℝ) (n_boot : Int) (conf_level : ℝ) (rng : σ)
    (hxy : x.length = y.length) (hb : 0 < bandwidth) (hc0 : 0 < conf_level)
    (hc1 : conf_level < 1) (hm : 1 ≤ x_eval.length) :
    ∃ res : RList ℝ,
      (nadaraya_watson Real.exp Real.sqrt Real.pi sample x y x_eval bandwidth n_boot
        conf_level rng).1 = .ok res ∧
      (∃ y_pred, res.field "y_pred" = some y_pred ∧ y_pred.length = x_eval.length) ∧
      (0 < n_boot →
        res.map Prod.fst = ["y_pred", "lower", "upper"] ∧
        ∃ lower upper, res.field "lower" = some lower ∧ res.field "upper" = some upper ∧
          lower.length = x_eval.length ∧ upper.length = x_eval.length) ∧
      (n_boot ≤ 0 →
        res.map Prod.fst = ["y_pred"] ∧ res.field "lower" = none ∧
          res.field "upper" = none) := by
  rw [nadaraya_watson_of_valid Real.exp Real.sqrt Real.pi sample x y x_eval bandwidth n_boot
    conf_level rng hxy hb hc0 hc1 hm]
  by_cases hnb : n_boot > 0
  · rw [if_pos hnb]
    refine ⟨_, rfl, ⟨_, rfl, point_estimate_length _ _ _ _ _ _ _ _⟩, ?_, ?_⟩
    · intro _
      exact ⟨rfl, _, _, rfl, rfl,
        (confidence_bounds_length _ _ _ _).1, (confidence_bounds_length _ _ _ _).2⟩
    · intro h
      omega
  · rw [if_neg hnb]
    refine ⟨_, rfl, ⟨_, rfl, point_estimate_length _ _ _ _ _ _ _ _⟩, ?_, ?_⟩
    · intro h
      omega
    · intro _
      exact ⟨rfl, rfl, rfl⟩

theorem result_shape_witness :
    ∃ res : RList ℝ,
      (nadaraya_watson Real.exp Real.sqrt Real.pi rotating_sample [1, 2, 4] [3, 5, 6] [2, 3]
        1 5 0.9 (0 : Nat)).1 = .ok res ∧
      (∃ y_pred, res.field "y_pred" = some y_pred ∧
        y_pred.length = ([2, 3] : List ℝ).length) ∧
      ((0 : Int) < 5 →
        res.map Prod.fst = ["y_pred", "lower", "upper"] ∧
        ∃ lower upper, res.field "lower" = some lower ∧ res.field "upper" = some upper ∧
          lower.length = ([2, 3] : List ℝ).length ∧
          upper.length = ([2, 3] : List ℝ).length) ∧
      ((5 : Int) ≤ 0 →
        res.map Prod.fst = ["y_pred"] ∧ res.field "lower" = none ∧
          res.field "upper" = none) :=
  result_shape rotating_sample [1, 2, 4] [3, 5, 6] [2, 3] 1 5 0.9 0 rfl (by norm_num)
    (by norm_num) (by norm_num) (by simp)

end Validation

/-! ## The percentile interval -/

section Interval

/-- C10: for a successful call with `n_boot > 0` and `n >= 1`, whatever the sampler
returns, `lower[j] <= upper[j]` at every evaluation point `j`. -/
theorem lower_le_upper {σ : Type} (sample : Nat → Nat → σ → List Int × σ)
    (x y x_eval : List ℝ) (bandwidth : ℝ) (n_boot : Int) (conf_level : ℝ) (rng : σ)
    (hxy : x.length = y.length) (_hn : 1 ≤ x.length) (hb : 0 < bandwidth)
    (hc0 : 0 < conf_level) (hc1 : conf_level < 1) (hm : 1 ≤ x_eval.length)
    (hnb : 0 < n_boot) :
    ∃ lower upper : List ℝ,
      field (nadaraya_watson Real.exp Real.sqrt Real.pi sample x y x_eval bandwidth n_boot
        conf_level rng).1 "lower" = some lower ∧
      field (nadaraya_watson Real.exp Real.sqrt Real.pi sample x y x_eval bandwidth n_boot
        conf_level rng).1 "upper" = some upper ∧
      lower.length = x_eval.length ∧ upper.length = x_eval.length ∧
      ∀ j, j < x_eval.length → lower.getD j 0 ≤ upper.getD j 0 := by
  obtain ⟨hlo, hup⟩ := fields_of_valid_boot Real.exp Real.sqrt Real.pi sample x y x_eval
    bandwidth n_boot conf_level rng hxy hb hc0 hc1 hm hnb
  refine ⟨_, _, hlo, hup, (confidence_bounds_length _ _ _ _).1,
    (confidence_bounds_length _ _ _ _).2, ?_⟩
  intro j hj
  have hget := confidence_bounds_getD (bootstrap_loop Real.exp sample
      (1.0 / (bandwidth * Real.sqrt (2 * Real.pi))) bandwidth x y x_eval x.length
      x_eval.length n_boot rng).1 x_eval.length n_boot conf_level j hj
  have hLb := lower_index_bounds n_boot conf_level hnb
  have hUb := upper_index_bounds n_boot conf_level hnb
  have hLU := lower_index_le_upper_index n_boot conf_level hnb hc0
  have hlen := sorted_column_length Real.exp sample
      (1.0 / (bandwidth * Real.sqrt (2 * Real.pi))) bandwidth x y x_eval x.length
      x_eval.length n_boot rng j
  have hsorted := List.sorted_insertionSort (· ≤ · : ℝ → ℝ → Prop)
    (column (bootstrap_loop Real.exp sample
      (1.0 / (bandwidth * Real.sqrt (2 * Real.pi))) bandwidth x y x_eval x.length
      x_eval.length n_boot rng).1 j)
  rw [hget.1, hget.2, readAt_of_nonneg _ _ hLb.1, readAt_of_nonneg _ _ hUb.1]
  have h1 : (lower_index n_boot conf_level).toNat
      < ((column (bootstrap_loop Real.exp sample
      (1.0 / (bandwidth * Real.sqrt (2 * Real.pi))) bandwidth x y x_eval x.length
      x_eval.length n_boot rng).1 j).insertionSort (· ≤ ·)).length := by
    rw [hlen]
    omega
  have h2 : (upper_index n_boot conf_level).toNat
      < ((column (bootstrap_loop Real.exp sample
      (1.0 / (bandwidth * Real.sqrt (2 * Real.pi))) bandwidth x y x_eval x.length
      x_eval.length n_boot rng).1 j).insertionSort (· ≤ ·)).length := by
    rw [hlen]
    omega
  rw [List.getD_eq_getElem _ _ h1, List.getD_eq_getElem _ _ h2]
  exact hsorted.rel_get_of_le (a := ⟨_, h1⟩) (b := ⟨_, h2⟩) (by
    show (lower_index n_boot conf_level).toNat ≤ (upper_index n_boot conf_level).toNat
    omega)

theorem lower_le_upper_witness :
    ∃ lower upper : List ℝ,
      field (nadaraya_watson Real.exp Real.sqrt Real.pi rotating_sample [1, 2, 4] [3, 5, 6]
        [2, 3] 1 5 0.9 (0 : Nat)).1 "lower" = some lower ∧
      field (nadaraya_watson Real.exp Real.sqrt Real.pi rotating_sample [1, 2, 4] [3, 5, 6]
        [2, 3] 1 5 0.9 (0 : Nat)).1 "upper" = some upper ∧
      lower.length = ([2, 3] : List ℝ).length ∧ upper.length = ([2, 3] : List ℝ).length ∧
      ∀ j, j < ([2, 3] : List ℝ).length → lower.getD j 0 ≤ upper.getD j 0 :=
  lower_le_upper rotating_sample [1, 2, 4] [3, 5, 6] [2, 3] 1 5 0.9 0 rfl (by simp)
    (by norm_num) (by norm_num) (by norm_num) (by simp) (by decide)

end Interval

/-! ## The bootstrap replicates -/

section Replicates

variable {α : Type} [LinearOrderedField α]

theorem bootstrap_iteration_row {σ : Type} (exp : α → α)
    (sample : Nat → Nat → σ → List Int × σ) (nf bw : α) (x y x_eval : List α) (n m : Nat)
    (rng : σ) :
    (bootstrap_iteration exp sample nf bw x y x_eval n m rng).1
      = point_estimate exp nf bw (gather x (sample n n rng).1 n) (gather y (sample n n rng).1 n)
          x_eval n m := by
  simp only [bootstrap_iteration, point_estimate, accumulate, gather]

theorem bootstrap_iteration_state {σ : Type} (exp : α → α)
    (sample : Nat → Nat → σ → List Int × σ) (nf bw : α) (x y x_eval : List α) (n m : Nat)
    (rng : σ) :
    (bootstrap_iteration exp sample nf bw x y x_eval n m rng).2 = (sample n n rng).2 := by
  simp only [bootstrap_iteration]

theorem foldl_rows_eq {σ β : Type} (g : σ → β × σ) (l : List Nat) (init : List β × σ) :
    l.foldl (fun (acc : List β × σ) (_b : Nat) => (acc.1 ++ [(g acc.2).1], (g acc.2).2)) init
      = (init.1 ++ (List.range l.length).map
            (fun b => (g ((fun s => (g s).2)^[b] init.2)).1),
         (fun s => (g s).2)^[l.length] init.2) := by
  induction l generalizing init with
  | nil => simp
  | cons b t ih =>
    rw [List.foldl_cons, ih]
    simp only [List.length_cons, List.range_succ_eq_map, List.map_cons, List.map_map,
      Function.iterate_succ_apply, Function.iterate_zero, id_eq, List.append_assoc,
      List.singleton_append]
    rfl

theorem bootstrap_loop_rows {σ : Type} (exp : α → α) (sample : Nat → Nat → σ → List Int × σ)
    (nf bw : α) (x y x_eval : List α) (n m : Nat) (n_boot : Int) (rng : σ) :
    (bootstrap_loop exp sample nf bw x y x_eval n m n_boot rng).1
      = (List.range n_boot.toNat).map fun (b : Nat) =>
          point_estimate exp nf bw (gather x (indices_of sample n b rng) n)
            (gather y (indices_of sample n b rng) n) x_eval n m := by
  unfold bootstrap_loop
  have h := foldl_rows_eq (bootstrap_iteration exp sample nf bw x y x_eval n m)
    (List.range n_boot.toNat) ([], rng)
  rw [h]
  simp only [List.nil_append, List.length_range]
  apply List.map_congr_left
  intro b _
  rw [bootstrap_iteration_row]
  have hs : ∀ k : Nat,
      (fun s => (bootstrap_iteration exp sample nf bw x y x_eval n m s).2)^[k] rng
        = state_before sample n k rng := by
    intro k
    unfold state_before
    congr 1
  rw [hs]
  rfl

theorem gather_eq_resample {β : Type} [Zero β] (v : List β) (idx : List Int) (n : Nat)
    (hlen : idx.length = n) (hpos : ∀ k ∈ idx, (1 : Int) ≤ k) :
    gather v idx n = (idx.map fun k => v.getD (k - 1).toNat 0) := by
  apply List.ext_getElem
  · simp [gather, hlen]
  · intro i h1 h2
    have hi : i < idx.length := by simpa using h2
    have hk := hpos _ (List.getElem_mem hi)
    have hr : readAt idx (i : Int) = idx[i] := by
      rw [readAt_natCast, List.getD_eq_getElem _ _ hi]
    simp only [gather, List.getElem_map, List.getElem_range, hr]
    rw [readAt_of_nonneg _ _ (by omega)]

theorem sorted_read_eq_entry (M : List (List α)) (j : Nat) (k : Int) (hk0 : 0 ≤ k)
    (hk : k.toNat < M.length) :
    ∃ b, b < M.length ∧ readAt ((column M j).insertionSort (· ≤ ·)) k = entry M b j := by
  have hlen : k.toNat < ((column M j).insertionSort (· ≤ ·)).length := by
    rw [List.length_insertionSort, column_length]
    exact hk
  have hmem : readAt ((column M j).insertionSort (· ≤ ·)) k ∈ column M j := by
    rw [readAt_of_nonneg _ _ hk0, List.getD_eq_getElem _ _ hlen]
    exact (List.perm_insertionSort _ _).subset (List.getElem_mem hlen)
  unfold column at hmem
  obtain ⟨row, hrow, hval⟩ := List.mem_map.1 hmem
  obtain ⟨b, hb, hget⟩ := List.getElem_of_mem hrow
  refine ⟨b, hb, ?_⟩
  unfold entry
  rw [List.getD_eq_getElem _ _ hb, hget]
  exact hval.symm

theorem bootstrap_loop_getD {σ : Type} (exp : α → α) (sample : Nat → Nat → σ → List Int × σ)
    (nf bw : α) (x y x_eval : List α) (n m : Nat) (n_boot : Int) (rng : σ) (b : Nat)
    (hb : b < n_boot.toNat) :
    (bootstrap_loop exp sample nf bw x y x_eval n m n_boot rng).1.getD b []
      = point_estimate exp nf bw (gather x (indices_of sample n b rng) n)
          (gather y (indices_of sample n b rng) n) x_eval n m := by
  rw [bootstrap_loop_rows]
  simp [List.getD_eq_getElem?_getD, List.getElem?_map, List.getElem?_range hb]

theorem rotating_sample_in_range : SamplerInRange rotating_sample := by
  intro n s
  constructor
  · simp [rotating_sample]
  · intro k hk
    simp only [rotating_sample, List.mem_map, List.mem_range] at hk
    obtain ⟨i, hi, rfl⟩ := hk
    have hn : 0 < n := by omega
    have hlt : (s + i * i) % n < n := Nat.mod_lt _ hn
    constructor <;> omega

theorem accumulate_fst_pos (x y : List ℝ) (n : Nat) (bandwidth xe : ℝ) (hn : 1 ≤ n)
    (hb : 0 < bandwidth) :
    0 < (accumulate Real.exp (1.0 / (bandwidth * Real.sqrt (2 * Real.pi))) bandwidth x y n
      xe).1 := by
  rw [accumulate_eq_sum]
  have hnf : 0 < (1.0 : ℝ) / (bandwidth * Real.sqrt (2 * Real.pi)) :=
    div_pos (by norm_num) (mul_pos hb (Real.sqrt_pos.2 (by positivity)))
  show 0 < ∑ i in Finset.range n,
    1.0 / (bandwidth * Real.sqrt (2 * Real.pi)) * gaussian_weight Real.exp bandwidth
      (x.getD i 0) xe
  apply Finset.sum_pos
  · intro i _
    exact mul_pos hnf (Real.exp_pos _)
  · exact Finset.nonempty_range_iff.2 (by omega)

theorem gather_getD_mem (v : List ℝ) (idx : List Int) (n i : Nat) (hv : v.length = n)
    (hlen : idx.length = n) (hrange : ∀ k ∈ idx, 1 ≤ k ∧ k ≤ (n : Int)) (hi : i < n) :
    (gather v idx n).getD i 0 ∈ v := by
  have hi' : i < idx.length := by omega
  obtain ⟨h1, h2⟩ := hrange _ (List.getElem_mem hi')
  have hr : readAt idx (i : Int) = idx[i] := by
    rw [readAt_natCast, List.getD_eq_getElem _ _ hi']
  rw [← hr] at h1 h2
  have hx : (readAt idx (i : Int) - 1).toNat < v.length := by omega
  rw [gather, getD_map_range _ _ _ hi, readAt_of_nonneg v _ (by omega),
    List.getD_eq_getElem _ _ hx]
  exact List.getElem_mem hx

theorem nw_reference_within (x y : List ℝ) (n : Nat) (bandwidth xe lo hi : ℝ) (hn : 1 ≤ n)
    (hy : ∀ i, i < n → lo ≤ y.getD i 0 ∧ y.getD i 0 ≤ hi) :
    lo ≤ nw_reference Real.exp x y n bandwidth xe ∧
    nw_reference Real.exp x y n bandwidth xe ≤ hi := by
  have hpos := real_weight_sum_pos x n bandwidth xe hn
  unfold nw_reference
  constructor
  · rw [le_div_iff₀ hpos, Finset.mul_sum]
    apply Finset.sum_le_sum
    intro i hi'
    rw [mul_comm]
    exact mul_le_mul_of_nonneg_left (hy i (Finset.mem_range.1 hi')).1 (Real.exp_pos _).le
  · rw [div_le_iff₀ hpos, Finset.mul_sum]
    apply Finset.sum_le_sum
    intro i hi'
    rw [mul_comm hi]
    exact mul_le_mul_of_nonneg_left (hy i (Finset.mem_range.1 hi')).2 (Real.exp_pos _).le

theorem point_estimate_within (x y x_eval : List ℝ) (bandwidth lo hi : ℝ) (n m j : Nat)
    (hn : 1 ≤ n) (hb : 0 < bandwidth) (hj : j < m)
    (hy : ∀ i, i < n → lo ≤ y.getD i 0 ∧ y.getD i 0 ≤ hi) :
    lo ≤ (point_estimate Real.exp (1.0 / (bandwidth * Real.sqrt (2 * Real.pi))) bandwidth
        x y x_eval n m).getD j 0 ∧
    (point_estimate Real.exp (1.0 / (bandwidth * Real.sqrt (2 * Real.pi))) bandwidth
        x y x_eval n m).getD j 0 ≤ hi := by
  rw [point_estimate_eq_map_reference _ _ _ _ _ _ _ _ (real_norm_factor_ne_zero bandwidth hb),
    getD_map_range _ _ _ hj]
  exact nw_reference_within x y n bandwidth _ lo hi hn hy

theorem getD_within_of_mem (y : List ℝ) (lo hi : ℝ) (hy : ∀ v ∈ y, lo ≤ v ∧ v ≤ hi) (i : Nat)
    (hi' : i < y.length) : lo ≤ y.getD i 0 ∧ y.getD i 0 ≤ hi := by
  rw [List.getD_eq_getElem _ _ hi']
  exact hy _ (List.getElem_mem hi')

theorem bootstrap_entry_within {σ : Type} (sample : Nat → Nat → σ → List Int × σ)
    (x y x_eval : List ℝ) (bandwidth lo hi : ℝ) (n_boot : Int) (rng : σ) (b j : Nat)
    (hxy : x.length = y.length) (hn : 1 ≤ x.length) (hb : 0 < bandwidth)
    (hs : SamplerInRange sample) (hy : ∀ v ∈ y, lo ≤ v ∧ v ≤ hi)
    (hb' : b < n_boot.toNat) (hj : j < x_eval.length) :
    lo ≤ entry (bootstrap_loop Real.exp sample (1.0 / (bandwidth * Real.sqrt (2 * Real.pi)))
        bandwidth x y x_eval x.length x_eval.length n_boot rng).1 b j ∧
    entry (bootstrap_loop Real.exp sample (1.0 / (bandwidth * Real.sqrt (2 * Real.pi)))
        bandwidth x y x_eval x.length x_eval.length n_boot rng).1 b j ≤ hi := by
  unfold entry
  rw [bootstrap_loop_getD _ _ _ _ _ _ _ _ _ _ _ _ hb', readAt_natCast]
  apply point_estimate_within _ _ _ _ _ _ _ _ _ hn hb hj
  intro i hi'
  obtain ⟨hlen, hrange⟩ := hs x.length (state_before sample x.length b rng)
  exact hy _ (gather_getD_mem y _ _ _ hxy.symm hlen hrange hi')

theorem confidence_bounds_within {σ : Type} (sample : Nat → Nat → σ → List Int × σ)
    (x y x_eval : List ℝ) (bandwidth lo hi : ℝ) (n_boot : Int) (conf_level : ℝ) (rng : σ)
    (j : Nat) (hxy : x.length = y.length) (hn : 1 ≤ x.length) (hb : 0 < bandwidth)
    (hs : SamplerInRange sample) (hy : ∀ v ∈ y, lo ≤ v ∧ v ≤ hi)
    (hnb : 0 < n_boot) (hj : j < x_eval.length) :
    (lo ≤ (confidence_bounds (bootstrap_loop Real.exp sample
        (1.0 / (bandwidth * Real.sqrt (2 * Real.pi))) bandwidth x y x_eval x.length
        x_eval.length n_boot rng).1 x_eval.length n_boot conf_level).1.getD j 0 ∧
      (confidence_bounds (bootstrap_loop Real.exp sample
        (1.0 / (bandwidth * Real.sqrt (2 * Real.pi))) bandwidth x y x_eval x.length
        x_eval.length n_boot rng).1 x_eval.length n_boot conf_level).1.getD j 0 ≤ hi) ∧
    (lo ≤ (confidence_bounds (bootstrap_loop Real.exp sample
        (1.0 / (bandwidth * Real.sqrt (2 * Real.pi))) bandwidth x y x_eval x.length
        x_eval.length n_boot rng).1 x_eval.length n_boot conf_level).2.getD j 0 ∧
      (confidence_bounds (bootstrap_loop Real.exp sample
        (1.0 / (bandwidth * Real.sqrt (2 * Real.pi))) bandwidth x y x_eval x.length
        x_eval.length n_boot rng).1 x_eval.length n_boot conf_level).2.getD j 0 ≤ hi) := by
  have hget := confidence_bounds_getD (bootstrap_loop Real.exp sample
      (1.0 / (bandwidth * Real.sqrt (2 * Real.pi))) bandwidth x y x_eval x.length
      x_eval.length n_boot rng).1 x_eval.length n_boot conf_level j hj
  have hLb := lower_index_bounds n_boot conf_level hnb
  have hUb := upper_index_bounds n_boot conf_level hnb
  have hlen := bootstrap_loop_length Real.exp sample
      (1.0 / (bandwidth * Real.sqrt (2 * Real.pi))) bandwidth x y x_eval x.length
      x_eval.length n_boot rng
  obtain ⟨b1, hb1, h1⟩ := sorted_read_eq_entry (bootstrap_loop Real.exp sample
      (1.0 / (bandwidth * Real.sqrt (2 * Real.pi))) bandwidth x y x_eval x.length
      x_eval.length n_boot rng).1 j (lower_index n_boot conf_level) hLb.1 (by
        rw [hlen]
        omega)
  obtain ⟨b2, hb2, h2⟩ := sorted_read_eq_entry (bootstrap_loop Real.exp sample
      (1.0 / (bandwidth * Real.sqrt (2 * Real.pi))) bandwidth x y x_eval x.length
      x_eval.length n_boot rng).1 j (upper_index n_boot conf_level) hUb.1 (by
        rw [hlen]
        omega)
  rw [hlen] at hb1 hb2
  rw [hget.1, hget.2, h1, h2]
  exact ⟨bootstrap_entry_within sample x y x_eval bandwidth lo hi n_boot rng b1 j hxy hn hb hs
      hy hb1 hj,
    bootstrap_entry_within sample x y x_eval bandwidth lo hi n_boot rng b2 j hxy hn hb hs
      hy hb2 hj⟩

theorem foldl_min_le (y : List ℝ) (a : ℝ) :
    y.foldl min a ≤ a ∧ ∀ v ∈ y, y.foldl min a ≤ v := by
  induction y generalizing a with
  | nil => simp
  | cons h t ih =>
    rw [List.foldl_cons]
    obtain ⟨h1, h2⟩ := ih (min a h)
    refine ⟨h1.trans (min_le_left _ _), ?_⟩
    intro v hv
    rcases List.mem_cons.1 hv with rfl | hv'
    · exact h1.trans (min_le_right _ _)
    · exact h2 v hv'

theorem le_foldl_max (y : List ℝ) (a : ℝ) :
    a ≤ y.foldl max a ∧ ∀ v ∈ y, v ≤ y.foldl max a := by
  induction y generalizing a with
  | nil => simp
  | cons h t ih =>
    rw [List.foldl_cons]
    obtain ⟨h1, h2⟩ := ih (max a h)
    refine ⟨(le_max_left _ _).trans h1, ?_⟩
    intro v hv
    rcases List.mem_cons.1 hv with rfl | hv'
    · exact (le_max_right _ _).trans h1
    · exact h2 v hv'

theorem list_min_le_max (y : List ℝ) :
    ∀ v ∈ y, list_min y ≤ v ∧ v ≤ list_max y := fun v hv =>
  ⟨(foldl_min_le y _).2 v hv, (le_foldl_max y _).2 v hv⟩

end Replicates

/-! ## Further properties of the point estimate -/

section PointEstimateFurther

theorem sum_odd_of_reflection (x : List ℝ) (e : ℝ) (f : ℝ → ℝ)
    (hsym : (x.map fun t => 2 * e - t).Perm x) (hodd : ∀ t, f (2 * e - t) = -f t) :
    (x.map f).sum = 0 := by
  have h1 : ((x.map fun t => 2 * e - t).map f).sum = (x.map f).sum := (hsym.map f).sum_eq
  have h2 : ((x.map fun t => 2 * e - t).map f).sum = -(x.map f).sum := by
    rw [List.map_map]
    have hm : (x.map (f ∘ fun t => 2 * e - t)) = (x.map f).map (fun v => -v) := by
      rw [List.map_map]
      apply List.map_congr_left
      intro t _
      exact hodd t
    rw [hm, List.sum_neg]
  linarith

theorem sum_range_getD_eq_list_sum (x : List ℝ) (f : ℝ → ℝ) :
    ∑ i in Finset.range x.length, f (x.getD i 0) = (x.map f).sum := by
  induction x using List.reverseRecOn with
  | nil => simp
  | append_singleton l a ih =>
    rw [List.length_append, List.length_singleton, Finset.sum_range_succ, List.map_append,
      List.sum_append, ← ih]
    congr 1
    · apply Finset.sum_congr rfl
      intro i hi
      rw [List.getD_append _ _ _ _ (Finset.mem_range.1 hi)]
    · simp [List.getD_eq_getElem?_getD]

theorem nw_reference_linear_symmetric (a b e bandwidth : ℝ) (x y : List ℝ)
    (hn : 1 ≤ x.length)
    (hlin : ∀ i, i < x.length → y.getD i 0 = a * x.getD i 0 + b)
    (hsym : (x.map fun t => 2 * e - t).Perm x) :
    nw_reference Real.exp x y x.length bandwidth e = a * e + b := by
  have hpos := real_weight_sum_pos x x.length bandwidth e hn
  have hodd : ∑ i in Finset.range x.length,
      gaussian_weight Real.exp bandwidth (x.getD i 0) e * (x.getD i 0 - e) = 0 := by
    rw [sum_range_getD_eq_list_sum x
      (fun t => gaussian_weight Real.exp bandwidth t e * (t - e))]
    apply sum_odd_of_reflection x e _ hsym
    intro t
    have hsq : ((2 * e - t - e) / bandwidth) ^ 2 = ((t - e) / bandwidth) ^ 2 := by ring
    simp only [gaussian_weight, hsq]
    ring
  have hnum : ∑ i in Finset.range x.length,
      gaussian_weight Real.exp bandwidth (x.getD i 0) e * y.getD i 0
        = (a * e + b) * ∑ i in Finset.range x.length,
            gaussian_weight Real.exp bandwidth (x.getD i 0) e := by
    have hsplit : ∀ i ∈ Finset.range x.length,
        gaussian_weight Real.exp bandwidth (x.getD i 0) e * y.getD i 0
          = a * (gaussian_weight Real.exp bandwidth (x.getD i 0) e * (x.getD i 0 - e))
            + (a * e + b) * gaussian_weight Real.exp bandwidth (x.getD i 0) e := by
      intro i hi
      rw [hlin i (Finset.mem_range.1 hi)]
      ring
    rw [Finset.sum_congr rfl hsplit, Finset.sum_add_distrib, ← Finset.mul_sum,
      ← Finset.mul_sum, hodd, mul_zero, zero_add]
  unfold nw_reference
  rw [hnum, mul_div_assoc, div_self hpos.ne', mul_one]

/-- C11, as stated, fails on empty data: `x = y = []` is linear (`y[i] = 0 * x[i] + 1`
holds for every `i`) and symmetric about `e = 0`, the call with `x_eval = [0]` and
`bandwidth = 1` passes the four checks, the total weight at `e` is `0`, and the prediction
there is the quotient `0 / 0`, which is not `0 * 0 + 1`. -/
theorem linear_symmetric_fails_on_empty_data :
    (∀ i, i < ([] : List ℝ).length →
      ([] : List ℝ).getD i 0 = 0 * ([] : List ℝ).getD i 0 + 1) ∧
    (([] : List ℝ).map fun t => 2 * 0 - t).Perm [] ∧
    accumulate Real.exp (1.0 / (1 * Real.sqrt (2 * Real.pi))) 1 [] [] 0 0 = (0, 0) ∧
    ∃ y_pred : List ℝ,
      field (nadaraya_watson Real.exp Real.sqrt Real.pi rotating_sample [] [] [0] 1 0 0.95
        (0 : Nat)).1 "y_pred" = some y_pred ∧
      y_pred.getD 0 0 ≠ 0 * 0 + 1 := by
  refine ⟨by simp, by simp, by simp [accumulate], _,
    field_y_pred_of_valid Real.exp Real.sqrt Real.pi rotating_sample [] [] [0] 1 0 0.95 0 rfl
      (by norm_num) (by norm_num) (by norm_num) (by simp), ?_⟩
  simp [point_estimate, accumulate]

/-- C11, amended: with at least one observation (`n >= 1`), responses linear in the
predictors (`y[i] = a * x[i] + b`) and the multiset of predictors symmetric about an
evaluation point `e`, the prediction at `e` is `a * e + b`, for every `bandwidth > 0`. -/
theorem y_pred_of_linear_symmetric {σ : Type} (sample : Nat → Nat → σ → List Int × σ)
    (a b e : ℝ) (x y x_eval : List ℝ) (bandwidth : ℝ) (n_boot : Int) (conf_level : ℝ)
    (rng : σ) (j : Nat)
    (hxy : x.length = y.length) (hn : 1 ≤ x.length)
    (hlin : ∀ i, i < x.length → y.getD i 0 = a * x.getD i 0 + b)
    (hsym : (x.map fun t => 2 * e - t).Perm x)
    (hb : 0 < bandwidth) (hc0 : 0 < conf_level) (hc1 : conf_level < 1)
    (hj : j < x_eval.length) (he : x_eval.getD j 0 = e) :
    ∃ y_pred : List ℝ,
      field (nadaraya_watson Real.exp Real.sqrt Real.pi sample x y x_eval bandwidth n_boot
        conf_level rng).1 "y_pred" = some y_pred ∧
      y_pred.getD j 0 = a * e + b := by
  refine ⟨_, field_y_pred_of_valid Real.exp Real.sqrt Real.pi sample x y x_eval bandwidth n_boot
    conf_level rng hxy hb hc0 hc1 (by omega), ?_⟩
  rw [point_estimate_eq_map_reference _ _ _ _ _ _ _ _ (real_norm_factor_ne_zero bandwidth hb),
    getD_map_range _ _ _ hj, he]
  exact nw_reference_linear_symmetric a b e bandwidth x y hn hlin hsym

theorem y_pred_of_linear_symmetric_witness :
    ∃ y_pred : List ℝ,
      field (nadaraya_watson Real.exp Real.sqrt Real.pi rotating_sample [1, 2, 3, 4, 5]
        [1, 2, 3, 4, 5] [3] 1.0 0 0.95 (0 : Nat)).1 "y_pred" = some y_pred ∧
      y_pred.getD 0 0 = 1 * 3 + 0 :=
  y_pred_of_linear_symmetric rotating_sample 1 0 3 [1, 2, 3, 4, 5] [1, 2, 3, 4, 5] [3] 1.0 0
    0.95 0 0 rfl (by simp) (by intro i _; ring)
    (by
      have h : (([1, 2, 3, 4, 5] : List ℝ).map fun t => 2 * 3 - t) = [5, 4, 3, 2, 1] := by
        norm_num
      rw [h]
      exact List.reverse_perm [1, 2, 3, 4, 5])
    (by norm_num) (by norm_num) (by norm_num) (by simp) (by simp)

/-- C12: the point estimate depends on `(x, y, x_eval, bandwidth)` only: two successful
calls that agree on these four arguments return the same `y_pred`, whatever their
`n_boot`, `conf_level`, sampler and generator state are. -/
theorem y_pred_independent_of_bootstrap {σ τ : Type}
    (sample : Nat → Nat → σ → List Int × σ) (sample' : Nat → Nat → τ → List Int × τ)
    (x y x_eval : List ℝ) (bandwidth : ℝ) (n_boot n_boot' : Int)
    (conf_level conf_level' : ℝ) (rng : σ) (rng' : τ)
    (hxy : x.length = y.length) (hb : 0 < bandwidth) (hm : 1 ≤ x_eval.length)
    (hc0 : 0 < conf_level) (hc1 : conf_level < 1)
    (hc0' : 0 < conf_level') (hc1' : conf_level' < 1) :
    ∃ y_pred : List ℝ,
      field (nadaraya_watson Real.exp Real.sqrt Real.pi sample x y x_eval bandwidth n_boot
        conf_level rng).1 "y_pred" = some y_pred ∧
      field (nadaraya_watson Real.exp Real.sqrt Real.pi sample' x y x_eval bandwidth n_boot'
        conf_level' rng').1 "y_pred" = some y_pred :=
  ⟨_, field_y_pred_of_valid Real.exp Real.sqrt Real.pi sample x y x_eval bandwidth n_boot
      conf_level rng hxy hb hc0 hc1 hm,
    field_y_pred_of_valid Real.exp Real.sqrt Real.pi sample' x y x_eval bandwidth n_boot'
      conf_level' rng' hxy hb hc0' hc1' hm⟩

theorem y_pred_independent_of_bootstrap_witness :
    ∃ y_pred : List ℝ,
      field (nadaraya_watson Real.exp Real.sqrt Real.pi rotating_sample [1, 2, 4] [3, 5, 6]
        [2, 3] 1 0 0.95 (0 : Nat)).1 "y_pred" = some y_pred ∧
      field (nadaraya_watson Real.exp Real.sqrt Real.pi
        (fun (_ size : Nat) (u : Unit) => (List.replicate size (1 : Int), u))
        [1, 2, 4] [3, 5, 6] [2, 3] 1 7 0.5 ()).1 "y_pred" = some y_pred :=
  y_pred_independent_of_bootstrap rotating_sample
    (fun (_ size : Nat) (u : Unit) => (List.replicate size (1 : Int), u))
    [1, 2, 4] [3, 5, 6] [2, 3] 1 0 7 0.95 0.5 0 () rfl (by norm_num) (by simp)
    (by norm_num) (by norm_num) (by norm_num) (by norm_num)

end PointEstimateFurther

/-! ## Further properties of the percentile interval -/

section IntervalFurther

theorem raw_lower_index_range (n_boot : Int) (conf_level : ℝ) (hnb : 0 < n_boot)
    (hc0 : 0 < conf_level) (hc1 : conf_level < 1) :
    0 ≤ ⌊(n_boot : ℝ) * (1 - conf_level) / 2⌋ ∧
    ⌊(n_boot : ℝ) * (1 - conf_level) / 2⌋ ≤ n_boot - 1 := by
  have hnb' : (0 : ℝ) < (n_boot : ℝ) := by exact_mod_cast hnb
  constructor
  · rw [Int.floor_nonneg]
    have : 0 < (n_boot : ℝ) * (1 - conf_level) := mul_pos hnb' (by linarith)
    linarith
  · rw [Int.le_sub_one_iff, Int.floor_lt]
    have : (n_boot : ℝ) * (1 - conf_level) < (n_boot : ℝ) * 1 :=
      mul_lt_mul_of_pos_left (by linarith) hnb'
    linarith

theorem raw_upper_index_eq (n_boot : Int) (conf_level : ℝ) :
    ⌈(n_boot : ℝ) * (1 + conf_level) / 2⌉ - 1
      = n_boot - 1 - ⌊(n_boot : ℝ) * (1 - conf_level) / 2⌋ := by
  have h : (n_boot : ℝ) * (1 + conf_level) / 2
      = -((n_boot : ℝ) * (1 - conf_level) / 2) + (n_boot : ℝ) := by ring
  rw [h, Int.ceil_add_int, Int.ceil_neg]
  ring

theorem index_eq_raw (n_boot : Int) (conf_level : ℝ) (hnb : 0 < n_boot)
    (hc0 : 0 < conf_level) (hc1 : conf_level < 1) :
    lower_index n_boot conf_level = ⌊(n_boot : ℝ) * (1 - conf_level) / 2⌋ ∧
    upper_index n_boot conf_level = ⌈(n_boot : ℝ) * (1 + conf_level) / 2⌉ - 1 := by
  have hr := raw_lower_index_range n_boot conf_level hnb hc0 hc1
  have hu := raw_upper_index_eq n_boot conf_level
  have two : (2.0 : ℝ) = 2 := by norm_num
  have hu1 : ⌈(n_boot : ℝ) * (1 + conf_level) / 2⌉ - 1 ≤ n_boot - 1 := by omega
  have hu0 : 0 ≤ ⌈(n_boot : ℝ) * (1 + conf_level) / 2⌉ - 1 := by omega
  simp only [lower_index, upper_index, two]
  constructor
  · rw [min_eq_right hr.2, max_eq_right hr.1]
  · rw [min_eq_right hu1, max_eq_right hu0]

/-- C14: for `n_boot >= 1` and `0 < conf_level < 1` the two selected positions satisfy
`lower_idx + upper_idx = n_boot - 1`: in a sorted column of `n_boot` values, as many values
lie before position `lower_idx` as after position `upper_idx`. -/
theorem interval_equal_tailed (n_boot : Int) (conf_level : ℝ) (s : List ℝ)
    (hnb : 1 ≤ n_boot) (hc0 : 0 < conf_level) (hc1 : conf_level < 1)
    (hs : (s.length : Int) = n_boot) :
    lower_index n_boot conf_level + upper_index n_boot conf_level = n_boot - 1 ∧
    (s.take (lower_index n_boot conf_level).toNat).length
      = (s.drop ((upper_index n_boot conf_level).toNat + 1)).length := by
  obtain ⟨hL, hU⟩ := index_eq_raw n_boot conf_level (by omega) hc0 hc1
  have hr := raw_lower_index_range n_boot conf_level (by omega) hc0 hc1
  have hu := raw_upper_index_eq n_boot conf_level
  have hsum : lower_index n_boot conf_level + upper_index n_boot conf_level = n_boot - 1 := by
    rw [hL, hU, hu]
    ring
  refine ⟨hsum, ?_⟩
  rw [List.length_take, List.length_drop]
  rw [hL] at hsum ⊢
  omega

theorem interval_equal_tailed_witness :
    lower_index 200 (0.95 : ℝ) + upper_index 200 (0.95 : ℝ) = 200 - 1 ∧
    ((List.replicate 200 (0 : ℝ)).take (lower_index 200 (0.95 : ℝ)).toNat).length
      = ((List.replicate 200 (0 : ℝ)).drop ((upper_index 200 (0.95 : ℝ)).toNat + 1)).length :=
  interval_equal_tailed 200 0.95 (List.replicate 200 0) (by decide) (by norm_num)
    (by norm_num) (by rw [List.length_replicate]; rfl)

/-- C18: for `n_boot >= 1` and `0 < conf_level < 1` the clamping of lines 137-138 changes
nothing: `floor(n_boot * (1 - conf_level) / 2)` and `ceil(n_boot * (1 + conf_level) / 2) - 1`
already lie in `[0, n_boot - 1]` and are the values of `lower_idx` and `upper_idx`. -/
theorem clamping_is_identity (n_boot : Int) (conf_level : ℝ)
    (hnb : 1 ≤ n_boot) (hc0 : 0 < conf_level) (hc1 : conf_level < 1) :
    (0 ≤ ⌊(n_boot : ℝ) * (1 - conf_level) / 2⌋ ∧
      ⌊(n_boot : ℝ) * (1 - conf_level) / 2⌋ ≤ n_boot - 1) ∧
    (0 ≤ ⌈(n_boot : ℝ) * (1 + conf_level) / 2⌉ - 1 ∧
      ⌈(n_boot : ℝ) * (1 + conf_level) / 2⌉ - 1 ≤ n_boot - 1) ∧
    lower_index n_boot conf_level = ⌊(n_boot : ℝ) * (1 - conf_level) / 2⌋ ∧
    upper_index n_boot conf_level = ⌈(n_boot : ℝ) * (1 + conf_level) / 2⌉ - 1 := by
  have hr := raw_lower_index_range n_boot conf_level (by omega) hc0 hc1
  have hu := raw_upper_index_eq n_boot conf_level
  obtain ⟨hL, hU⟩ := index_eq_raw n_boot conf_level (by omega) hc0 hc1
  exact ⟨hr, ⟨by omega, by omega⟩, hL, hU⟩

theorem clamping_is_identity_witness :
    (0 ≤ ⌊((1 : Int) : ℝ) * (1 - 0.5) / 2⌋ ∧
      ⌊((1 : Int) : ℝ) * (1 - 0.5) / 2⌋ ≤ 1 - 1) ∧
    (0 ≤ ⌈((1 : Int) : ℝ) * (1 + 0.5) / 2⌉ - 1 ∧
      ⌈((1 : Int) : ℝ) * (1 + 0.5) / 2⌉ - 1 ≤ 1 - 1) ∧
    lower_index 1 (0.5 : ℝ) = ⌊((1 : Int) : ℝ) * (1 - 0.5) / 2⌋ ∧
    upper_index 1 (0.5 : ℝ) = ⌈((1 : Int) : ℝ) * (1 + 0.5) / 2⌉ - 1 :=
  clamping_is_identity 1 0.5 (by decide) (by norm_num) (by norm_num)

/-- C13: for a successful call with `n_boot > 0` and every evaluation point `j`, `lower[j]`
and `upper[j]` are entries of column `j` of the bootstrap matrix: there are replicates
`b1`, `b2` in `0..n_boot-1` with `lower[j] = y_pred_boot(b1, j)` and
`upper[j] = y_pred_boot(b2, j)`. -/
theorem bounds_are_bootstrap_predictions {σ : Type} (sample : Nat → Nat → σ → List Int × σ)
    (x y x_eval : List ℝ) (bandwidth : ℝ) (n_boot : Int) (conf_level : ℝ) (rng : σ)
    (hxy : x.length = y.length) (hb : 0 < bandwidth) (hc0 : 0 < conf_level)
    (hc1 : conf_level < 1) (hm : 1 ≤ x_eval.length) (hnb : 0 < n_boot) :
    ∃ lower upper : List ℝ,
      field (nadaraya_watson Real.exp Real.sqrt Real.pi sample x y x_eval bandwidth n_boot
        conf_level rng).1 "lower" = some lower ∧
      field (nadaraya_watson Real.exp Real.sqrt Real.pi sample x y x_eval bandwidth n_boot
        conf_level rng).1 "upper" = some upper ∧
      ∀ j, j < x_eval.length → ∃ b1 b2 : Nat, (b1 : Int) < n_boot ∧ (b2 : Int) < n_boot ∧
        lower.getD j 0 = entry (bootstrap_loop Real.exp sample
          (1.0 / (bandwidth * Real.sqrt (2 * Real.pi))) bandwidth x y x_eval x.length
          x_eval.length n_boot rng).1 b1 j ∧
        upper.getD j 0 = entry (bootstrap_loop Real.exp sample
          (1.0 / (bandwidth * Real.sqrt (2 * Real.pi))) bandwidth x y x_eval x.length
          x_eval.length n_boot rng).1 b2 j := by
  obtain ⟨hlo, hup⟩ := fields_of_valid_boot Real.exp Real.sqrt Real.pi sample x y x_eval
    bandwidth n_boot conf_level rng hxy hb hc0 hc1 hm hnb
  refine ⟨_, _, hlo, hup, ?_⟩
  intro j hj
  have hget := confidence_bounds_getD (bootstrap_loop Real.exp sample
      (1.0 / (bandwidth * Real.sqrt (2 * Real.pi))) bandwidth x y x_eval x.length
      x_eval.length n_boot rng).1 x_eval.length n_boot conf_level j hj
  have hLb := lower_index_bounds n_boot conf_level hnb
  have hUb := upper_index_bounds n_boot conf_level hnb
  have hlen := bootstrap_loop_length Real.exp sample
      (1.0 / (bandwidth * Real.sqrt (2 * Real.pi))) bandwidth x y x_eval x.length
      x_eval.length n_boot rng
  obtain ⟨b1, hb1, h1⟩ := sorted_read_eq_entry (bootstrap_loop Real.exp sample
      (1.0 / (bandwidth * Real.sqrt (2 * Real.pi))) bandwidth x y x_eval x.length
      x_eval.length n_boot rng).1 j (lower_index n_boot conf_level) hLb.1 (by
        rw [hlen]
        omega)
  obtain ⟨b2, hb2, h2⟩ := sorted_read_eq_entry (bootstrap_loop Real.exp sample
      (1.0 / (bandwidth * Real.sqrt (2 * Real.pi))) bandwidth x y x_eval x.length
      x_eval.length n_boot rng).1 j (upper_index n_boot conf_level) hUb.1 (by
        rw [hlen]
        omega)
  rw [hlen] at hb1 hb2
  exact ⟨b1, b2, by omega, by omega, hget.1.trans h1, hget.2.trans h2⟩

theorem bounds_are_bootstrap_predictions_witness :
    ∃ lower upper : List ℝ,
      field (nadaraya_watson Real.exp Real.sqrt Real.pi rotating_sample [1, 2, 4] [3, 5, 6]
        [2, 3] 1 5 0.9 (0 : Nat)).1 "lower" = some lower ∧
      field (nadaraya_watson Real.exp Real.sqrt Real.pi rotating_sample [1, 2, 4] [3, 5, 6]
        [2, 3] 1 5 0.9 (0 : Nat)).1 "upper" = some upper ∧
      ∀ j, j < ([2, 3] : List ℝ).length → ∃ b1 b2 : Nat, (b1 : Int) < 5 ∧ (b2 : Int) < 5 ∧
        lower.getD j 0 = entry (bootstrap_loop Real.exp rotating_sample
          (1.0 / (1 * Real.sqrt (2 * Real.pi))) 1 [1, 2, 4] [3, 5, 6] [2, 3]
          ([1, 2, 4] : List ℝ).length ([2, 3] : List ℝ).length 5 (0 : Nat)).1 b1 j ∧
        upper.getD j 0 = entry (bootstrap_loop Real.exp rotating_sample
          (1.0 / (1 * Real.sqrt (2 * Real.pi))) 1 [1, 2, 4] [3, 5, 6] [2, 3]
          ([1, 2, 4] : List ℝ).length ([2, 3] : List ℝ).length 5 (0 : Nat)).1 b2 j :=
  bounds_are_bootstrap_predictions rotating_sample [1, 2, 4] [3, 5, 6] [2, 3] 1 5 0.9 0 rfl
    (by norm_num) (by norm_num) (by norm_num) (by simp) (by decide)

/-- C15: for every replicate `b` in `0..n_boot-1` whose drawn indices `idx` are `n` values
in `1..n`, row `b` of the bootstrap matrix is the point-estimate loop of lines 72-82 run
on the resampled pairs `x_boot[i] = x[idx[i] - 1]`, `y_boot[i] = y[idx[i] - 1]` with the
same `x_eval` and `bandwidth`; one index selects both coordinates of a pair. -/
theorem bootstrap_row_eq_estimate_on_resample {σ : Type}
    (sample : Nat → Nat → σ → List Int × σ) (x y x_eval : List ℝ) (bandwidth : ℝ)
    (n_boot : Int) (rng : σ) (b : Nat)
    (hb : (b : Int) < n_boot)
    (hlen : (indices_of sample x.length b rng).length = x.length)
    (hrange : ∀ k ∈ indices_of sample x.length b rng, 1 ≤ k ∧ k ≤ (x.length : Int)) :
    (bootstrap_loop Real.exp sample (1.0 / (bandwidth * Real.sqrt (2 * Real.pi))) bandwidth
        x y x_eval x.length x_eval.length n_boot rng).1.getD b []
      = point_estimate Real.exp (1.0 / (bandwidth * Real.sqrt (2 * Real.pi))) bandwidth
          (resample x (indices_of sample x.length b rng))
          (resample y (indices_of sample x.length b rng)) x_eval
          (resample x (indices_of sample x.length b rng)).length x_eval.length := by
  have hpos : ∀ k ∈ indices_of sample x.length b rng, (1 : Int) ≤ k := fun k hk =>
    (hrange k hk).1
  rw [bootstrap_loop_getD _ _ _ _ _ _ _ _ _ _ _ _ (by omega),
    gather_eq_resample x _ _ hlen hpos, gather_eq_resample y _ _ hlen hpos]
  simp only [resample, List.length_map, hlen]

theorem bootstrap_row_eq_estimate_on_resample_witness :
    (bootstrap_loop Real.exp rotating_sample (1.0 / (1 * Real.sqrt (2 * Real.pi))) 1
        [1, 2, 4] [3, 5, 6] [2, 3] ([1, 2, 4] : List ℝ).length ([2, 3] : List ℝ).length 5
        (0 : Nat)).1.getD 2 []
      = point_estimate Real.exp (1.0 / (1 * Real.sqrt (2 * Real.pi))) 1
          (resample [1, 2, 4] (indices_of rotating_sample ([1, 2, 4] : List ℝ).length 2 0))
          (resample [3, 5, 6] (indices_of rotating_sample ([1, 2, 4] : List ℝ).length 2 0))
          [2, 3]
          (resample ([1, 2, 4] : List ℝ)
            (indices_of rotating_sample ([1, 2, 4] : List ℝ).length 2 0)).length
          ([2, 3] : List ℝ).length :=
  bootstrap_row_eq_estimate_on_resample rotating_sample [1, 2, 4] [3, 5, 6] [2, 3] 1 5 0 2
    (by decide) (rotating_sample_in_range _ _).1 (rotating_sample_in_range _ _).2

/-- C16: for `n >= 1` and `bandwidth > 0` the total kernel weight `sum_weights` is
strictly positive at every evaluation point, in the point-estimate loop and in every
bootstrap iteration (whatever the generator state and the drawn indices are), and each
prediction is the quotient `sum_weighted_y / sum_weights` by that positive weight. -/
theorem sum_weights_pos {σ : Type} (sample : Nat → Nat → σ → List Int × σ)
    (x y x_eval : List ℝ) (bandwidth : ℝ) (hn : 1 ≤ x.length) (hb : 0 < bandwidth) :
    (∀ j, j < x_eval.length →
      0 < (accumulate Real.exp (1.0 / (bandwidth * Real.sqrt (2 * Real.pi))) bandwidth x y
        x.length (x_eval.getD j 0)).1 ∧
      (point_estimate Real.exp (1.0 / (bandwidth * Real.sqrt (2 * Real.pi))) bandwidth x y
          x_eval x.length x_eval.length).getD j 0
        = (accumulate Real.exp (1.0 / (bandwidth * Real.sqrt (2 * Real.pi))) bandwidth x y
            x.length (x_eval.getD j 0)).2 /
          (accumulate Real.exp (1.0 / (bandwidth * Real.sqrt (2 * Real.pi))) bandwidth x y
            x.length (x_eval.getD j 0)).1) ∧
    (∀ (s : σ) (j : Nat), j < x_eval.length →
      0 < (accumulate Real.exp (1.0 / (bandwidth * Real.sqrt (2 * Real.pi))) bandwidth
        (gather x (sample x.length x.length s).1 x.length)
        (gather y (sample x.length x.length s).1 x.length) x.length (x_eval.getD j 0)).1 ∧
      (bootstrap_iteration Real.exp sample (1.0 / (bandwidth * Real.sqrt (2 * Real.pi)))
          bandwidth x y x_eval x.length x_eval.length s).1.getD j 0
        = (accumulate Real.exp (1.0 / (bandwidth * Real.sqrt (2 * Real.pi))) bandwidth
            (gather x (sample x.length x.length s).1 x.length)
            (gather y (sample x.length x.length s).1 x.length) x.length (x_eval.getD j 0)).2 /
          (accumulate Real.exp (1.0 / (bandwidth * Real.sqrt (2 * Real.pi))) bandwidth
            (gather x (sample x.length x.length s).1 x.length)
            (gather y (sample x.length x.length s).1 x.length) x.length
            (x_eval.getD j 0)).1) := by
  constructor
  · intro j hj
    exact ⟨accumulate_fst_pos _ _ _ _ _ hn hb, point_estimate_getD _ _ _ _ _ _ _ _ _ hj⟩
  · intro s j hj
    refine ⟨accumulate_fst_pos _ _ _ _ _ hn hb, ?_⟩
    rw [bootstrap_iteration_row]
    exact point_estimate_getD _ _ _ _ _ _ _ _ _ hj

theorem sum_weights_pos_witness :
    (∀ j, j < ([2, 3] : List ℝ).length →
      0 < (accumulate Real.exp (1.0 / ((1 : ℝ) * Real.sqrt (2 * Real.pi))) (1 : ℝ) [1, 2, 4] [3, 5, 6]
        ([1, 2, 4] : List ℝ).length (([2, 3] : List ℝ).getD j 0)).1 ∧
      (point_estimate Real.exp (1.0 / ((1 : ℝ) * Real.sqrt (2 * Real.pi))) (1 : ℝ) [1, 2, 4] [3, 5, 6]
          [2, 3] ([1, 2, 4] : List ℝ).length ([2, 3] : List ℝ).length).getD j 0
        = (accumulate Real.exp (1.0 / ((1 : ℝ) * Real.sqrt (2 * Real.pi))) (1 : ℝ) [1, 2, 4] [3, 5, 6]
            ([1, 2, 4] : List ℝ).length (([2, 3] : List ℝ).getD j 0)).2 /
          (accumulate Real.exp (1.0 / ((1 : ℝ) * Real.sqrt (2 * Real.pi))) (1 : ℝ) [1, 2, 4] [3, 5, 6]
            ([1, 2, 4] : List ℝ).length (([2, 3] : List ℝ).getD j 0)).1) ∧
    (∀ (s : Nat) (j : Nat), j < ([2, 3] : List ℝ).length →
      0 < (accumulate Real.exp (1.0 / ((1 : ℝ) * Real.sqrt (2 * Real.pi))) (1 : ℝ)
        (gather [1, 2, 4] (rotating_sample ([1, 2, 4] : List ℝ).length ([1, 2, 4] : List ℝ).length s).1 ([1, 2, 4] : List ℝ).length)
        (gather [3, 5, 6] (rotating_sample ([1, 2, 4] : List ℝ).length ([1, 2, 4] : List ℝ).length s).1 ([1, 2, 4] : List ℝ).length) ([1, 2, 4] : List ℝ).length (([2, 3] : List ℝ).getD j 0)).1 ∧
      (bootstrap_iteration Real.exp rotating_sample (1.0 / ((1 : ℝ) * Real.sqrt (2 * Real.pi)))
          (1 : ℝ) [1, 2, 4] [3, 5, 6] [2, 3] ([1, 2, 4] : List ℝ).length ([2, 3] : List ℝ).length s).1.getD j 0
        = (accumulate Real.exp (1.0 / ((1 : ℝ) * Real.sqrt (2 * Real.pi))) (1 : ℝ)
            (gather [1, 2, 4] (rotating_sample ([1, 2, 4] : List ℝ).length ([1, 2, 4] : List ℝ).length s).1 ([1, 2, 4] : List ℝ).length)
            (gather [3, 5, 6] (rotating_sample ([1, 2, 4] : List ℝ).length ([1, 2, 4] : List ℝ).length s).1 ([1, 2, 4] : List ℝ).length) ([1, 2, 4] : List ℝ).length (([2, 3] : List ℝ).getD j 0)).2 /
          (accumulate Real.exp (1.0 / ((1 : ℝ) * Real.sqrt (2 * Real.pi))) (1 : ℝ)
            (gather [1, 2, 4] (rotating_sample ([1, 2, 4] : List ℝ).length ([1, 2, 4] : List ℝ).length s).1 ([1, 2, 4] : List ℝ).length)
            (gather [3, 5, 6] (rotating_sample ([1, 2, 4] : List ℝ).length ([1, 2, 4] : List ℝ).length s).1 ([1, 2, 4] : List ℝ).length) ([1, 2, 4] : List ℝ).length
            (([2, 3] : List ℝ).getD j 0)).1) :=
  sum_weights_pos rotating_sample [1, 2, 4] [3, 5, 6] [2, 3] 1 (by simp) (by norm_num)

/-- C17: with a sampler that returns `n` indices, each in `1..n`, for the call
`sample(n, n, true)`, every read `x[indices[i] - 1]` and `y[indices[i] - 1]` of the gather
loop is at a position in `0..n-1`, and every position `p` in `0..n-1` is read when the
drawn index is `p + 1`, a value in `1..n`. -/
theorem gather_reads_in_bounds {σ : Type} (sample : Nat → Nat → σ → List Int × σ)
    (x y : List ℝ) (s : σ) (hxy : x.length = y.length) (hs : SamplerInRange sample) :
    (∀ i, i < x.length →
      0 ≤ readAt (sample x.length x.length s).1 i - 1 ∧
      readAt (sample x.length x.length s).1 i - 1 < (x.length : Int) ∧
      x[(readAt (sample x.length x.length s).1 i - 1).toNat]?
        = some ((gather x (sample x.length x.length s).1 x.length).getD i 0) ∧
      y[(readAt (sample x.length x.length s).1 i - 1).toNat]?
        = some ((gather y (sample x.length x.length s).1 x.length).getD i 0)) ∧
    (∀ p, p < x.length → ∃ k : Int, 1 ≤ k ∧ k ≤ (x.length : Int) ∧ (k - 1).toNat = p ∧
      ∀ (idx : List Int) (i : Nat), i < x.length → readAt idx i = k →
        (gather x idx x.length).getD i 0 = x.getD p 0 ∧
        (gather y idx x.length).getD i 0 = y.getD p 0) := by
  obtain ⟨hlen, hrange⟩ := hs x.length s
  constructor
  · intro i hi
    have hi' : i < (sample x.length x.length s).1.length := by omega
    have hr : readAt (sample x.length x.length s).1 (i : Int)
        = (sample x.length x.length s).1[i] := by
      rw [readAt_natCast, List.getD_eq_getElem _ _ hi']
    obtain ⟨h1, h2⟩ := hrange _ (List.getElem_mem hi')
    rw [← hr] at h1 h2
    have hx : (readAt (sample x.length x.length s).1 (i : Int) - 1).toNat < x.length := by
      omega
    have hy : (readAt (sample x.length x.length s).1 (i : Int) - 1).toNat < y.length := by
      omega
    refine ⟨by omega, by omega, ?_, ?_⟩
    · rw [gather, getD_map_range _ _ _ hi, readAt_of_nonneg x _ (by omega),
        List.getD_eq_getElem _ _ hx, List.getElem?_eq_getElem hx]
    · rw [gather, getD_map_range _ _ _ hi, readAt_of_nonneg y _ (by omega),
        List.getD_eq_getElem _ _ hy, List.getElem?_eq_getElem hy]
  · intro p hp
    refine ⟨(p : Int) + 1, by omega, by omega, by omega, ?_⟩
    intro idx i hi hk
    have h0 : (p : Int) + 1 - 1 = (p : Int) := by ring
    constructor
    · rw [gather, getD_map_range _ _ _ hi, hk, h0, readAt_natCast]
    · rw [gather, getD_map_range _ _ _ hi, hk, h0, readAt_natCast]

theorem gather_reads_in_bounds_witness :
    (∀ i, i < ([1, 2, 4] : List ℝ).length →
      0 ≤ readAt (rotating_sample ([1, 2, 4] : List ℝ).length ([1, 2, 4] : List ℝ).length
        0).1 i - 1 ∧
      readAt (rotating_sample ([1, 2, 4] : List ℝ).length ([1, 2, 4] : List ℝ).length 0).1 i - 1
        < (([1, 2, 4] : List ℝ).length : Int) ∧
      ([1, 2, 4] : List ℝ)[(readAt (rotating_sample ([1, 2, 4] : List ℝ).length
          ([1, 2, 4] : List ℝ).length 0).1 i - 1).toNat]?
        = some ((gather ([1, 2, 4] : List ℝ) (rotating_sample ([1, 2, 4] : List ℝ).length
            ([1, 2, 4] : List ℝ).length 0).1 ([1, 2, 4] : List ℝ).length).getD i 0) ∧
      ([3, 5, 6] : List ℝ)[(readAt (rotating_sample ([1, 2, 4] : List ℝ).length
          ([1, 2, 4] : List ℝ).length 0).1 i - 1).toNat]?
        = some ((gather ([3, 5, 6] : List ℝ) (rotating_sample ([1, 2, 4] : List ℝ).length
            ([1, 2, 4] : List ℝ).length 0).1 ([1, 2, 4] : List ℝ).length).getD i 0)) ∧
    (∀ p, p < ([1, 2, 4] : List ℝ).length →
      ∃ k : Int, 1 ≤ k ∧ k ≤ (([1, 2, 4] : List ℝ).length : Int) ∧ (k - 1).toNat = p ∧
      ∀ (idx : List Int) (i : Nat), i < ([1, 2, 4] : List ℝ).length → readAt idx i = k →
        (gather ([1, 2, 4] : List ℝ) idx ([1, 2, 4] : List ℝ).length).getD i 0
          = ([1, 2, 4] : List ℝ).getD p 0 ∧
        (gather ([3, 5, 6] : List ℝ) idx ([1, 2, 4] : List ℝ).length).getD i 0
          = ([3, 5, 6] : List ℝ).getD p 0) :=
  gather_reads_in_bounds rotating_sample [1, 2, 4] [3, 5, 6] 0 rfl rotating_sample_in_range

/-- C19: for a valid call with `n >= 1` and `bandwidth > 0`, every prediction is a convex
combination of the responses, so `min_i y[i] <= y_pred[j] <= max_i y[i]` at every
evaluation point `j`; when `n_boot > 0` and the sampler returns indices in `1..n`, the
same bounds hold for `lower[j]` and `upper[j]`. -/
theorem predictions_within_response_range {σ : Type}
    (sample : Nat → Nat → σ → List Int × σ)
    (x y x_eval : List ℝ) (bandwidth : ℝ) (n_boot : Int) (conf_level : ℝ) (rng : σ)
    (hxy : x.length = y.length) (hn : 1 ≤ x.length) (hb : 0 < bandwidth)
    (hc0 : 0 < conf_level) (hc1 : conf_level < 1) (hm : 1 ≤ x_eval.length)
    (hs : SamplerInRange sample) :
    ∃ y_pred : List ℝ,
      field (nadaraya_watson Real.exp Real.sqrt Real.pi sample x y x_eval bandwidth n_boot
        conf_level rng).1 "y_pred" = some y_pred ∧
      (∀ j, j < x_eval.length →
        (list_min y ≤ y_pred.getD j 0 ∧ y_pred.getD j 0 ≤ list_max y) ∧
        ∃ w : Nat → ℝ, (∀ i, 0 ≤ w i) ∧ ∑ i in Finset.range x.length, w i = 1 ∧
          y_pred.getD j 0 = ∑ i in Finset.range x.length, w i * y.getD i 0) ∧
      (0 < n_boot → ∃ lower upper : List ℝ,
        field (nadaraya_watson Real.exp Real.sqrt Real.pi sample x y x_eval bandwidth n_boot
          conf_level rng).1 "lower" = some lower ∧
        field (nadaraya_watson Real.exp Real.sqrt Real.pi sample x y x_eval bandwidth n_boot
          conf_level rng).1 "upper" = some upper ∧
        ∀ j, j < x_eval.length →
          (list_min y ≤ lower.getD j 0 ∧ lower.getD j 0 ≤ list_max y) ∧
          (list_min y ≤ upper.getD j 0 ∧ upper.getD j 0 ≤ list_max y)) := by
  refine ⟨_, field_y_pred_of_valid Real.exp Real.sqrt Real.pi sample x y x_eval bandwidth n_boot
    conf_level rng hxy hb hc0 hc1 hm, ?_, ?_⟩
  · intro j hj
    refine ⟨point_estimate_within x y x_eval bandwidth _ _ _ _ j hn hb hj
      (fun i hi => getD_within_of_mem y _ _ (list_min_le_max y) i (by omega)), ?_⟩
    have hpos := real_weight_sum_pos x x.length bandwidth (x_eval.getD j 0) hn
    refine ⟨fun i => gaussian_weight Real.exp bandwidth (x.getD i 0) (x_eval.getD j 0) /
      ∑ k in Finset.range x.length,
        gaussian_weight Real.exp bandwidth (x.getD k 0) (x_eval.getD j 0), ?_, ?_, ?_⟩
    · intro i
      exact div_nonneg (Real.exp_pos _).le hpos.le
    · rw [← Finset.sum_div, div_self hpos.ne']
    · rw [point_estimate_eq_map_reference _ _ _ _ _ _ _ _
        (real_norm_factor_ne_zero bandwidth hb), getD_map_range _ _ _ hj]
      unfold nw_reference
      rw [Finset.sum_div]
      apply Finset.sum_congr rfl
      intro i _
      ring
  · intro hnb
    obtain ⟨hlo, hup⟩ := fields_of_valid_boot Real.exp Real.sqrt Real.pi sample x y x_eval
      bandwidth n_boot conf_level rng hxy hb hc0 hc1 hm hnb
    refine ⟨_, _, hlo, hup, ?_⟩
    intro j hj
    exact confidence_bounds_within sample x y x_eval bandwidth _ _ n_boot conf_level rng j
      hxy hn hb hs (list_min_le_max y) hnb hj

theorem predictions_within_response_range_witness :
    ∃ y_pred : List ℝ,
      field (nadaraya_watson Real.exp Real.sqrt Real.pi rotating_sample [1, 2, 4] [3, 5, 6]
        [2, 3] 1 5 0.9 (0 : Nat)).1 "y_pred" = some y_pred ∧
      (∀ j, j < ([2, 3] : List ℝ).length →
        (list_min [3, 5, 6] ≤ y_pred.getD j 0 ∧ y_pred.getD j 0 ≤ list_max [3, 5, 6]) ∧
        ∃ w : Nat → ℝ, (∀ i, 0 ≤ w i) ∧
          ∑ i in Finset.range ([1, 2, 4] : List ℝ).length, w i = 1 ∧
          y_pred.getD j 0
            = ∑ i in Finset.range ([1, 2, 4] : List ℝ).length,
                w i * ([3, 5, 6] : List ℝ).getD i 0) ∧
      ((0 : Int) < 5 → ∃ lower upper : List ℝ,
        field (nadaraya_watson Real.exp Real.sqrt Real.pi rotating_sample [1, 2, 4] [3, 5, 6]
          [2, 3] 1 5 0.9 (0 : Nat)).1 "lower" = some lower ∧
        field (nadaraya_watson Real.exp Real.sqrt Real.pi rotating_sample [1, 2, 4] [3, 5, 6]
          [2, 3] 1 5 0.9 (0 : Nat)).1 "upper" = some upper ∧
        ∀ j, j < ([2, 3] : List ℝ).length →
          (list_min [3, 5, 6] ≤ lower.getD j 0 ∧ lower.getD j 0 ≤ list_max [3, 5, 6]) ∧
          (list_min [3, 5, 6] ≤ upper.getD j 0 ∧ upper.getD j 0 ≤ list_max [3, 5, 6])) :=
  predictions_within_response_range rotating_sample [1, 2, 4] [3, 5, 6] [2, 3] 1 5 0.9 0 rfl
    (by simp) (by norm_num) (by norm_num) (by norm_num) (by simp) rotating_sample_in_range

/-- C20: with constant responses `y[i] = c`, `n >= 1`, `bandwidth > 0`,
`0 < conf_level < 1`, `n_boot >= 1` and a sampler that returns indices in `1..n`, the
interval collapses onto the point estimate: `lower[j] = upper[j] = y_pred[j] = c` at
every evaluation point `j`. -/
theorem constant_y_collapses_interval {σ : Type} (sample : Nat → Nat → σ → List Int × σ)
    (c : ℝ) (x y x_eval : List ℝ) (bandwidth : ℝ) (n_boot : Int) (conf_level : ℝ) (rng : σ)
    (hxy : x.length = y.length) (hn : 1 ≤ x.length) (hy : ∀ v ∈ y, v = c)
    (hb : 0 < bandwidth) (hc0 : 0 < conf_level) (hc1 : conf_level < 1)
    (hm : 1 ≤ x_eval.length) (hnb : 1 ≤ n_boot) (hs : SamplerInRange sample) :
    ∃ y_pred lower upper : List ℝ,
      field (nadaraya_watson Real.exp Real.sqrt Real.pi sample x y x_eval bandwidth n_boot
        conf_level rng).1 "y_pred" = some y_pred ∧
      field (nadaraya_watson Real.exp Real.sqrt Real.pi sample x y x_eval bandwidth n_boot
        conf_level rng).1 "lower" = some lower ∧
      field (nadaraya_watson Real.exp Real.sqrt Real.pi sample x y x_eval bandwidth n_boot
        conf_level rng).1 "upper" = some upper ∧
      ∀ j, j < x_eval.length →
        lower.getD j 0 = c ∧ upper.getD j 0 = c ∧ y_pred.getD j 0 = c := by
  have hy' : ∀ v ∈ y, c ≤ v ∧ v ≤ c := fun v hv => by
    rw [hy v hv]
    exact ⟨le_rfl, le_rfl⟩
  obtain ⟨hlo, hup⟩ := fields_of_valid_boot Real.exp Real.sqrt Real.pi sample x y x_eval
    bandwidth n_boot conf_level rng hxy hb hc0 hc1 hm (by omega)
  refine ⟨_, _, _, field_y_pred_of_valid Real.exp Real.sqrt Real.pi sample x y x_eval bandwidth
    n_boot conf_level rng hxy hb hc0 hc1 hm, hlo, hup, ?_⟩
  intro j hj
  obtain ⟨⟨h1, h2⟩, h3, h4⟩ := confidence_bounds_within sample x y x_eval bandwidth c c n_boot
    conf_level rng j hxy hn hb hs hy' (by omega) hj
  obtain ⟨h5, h6⟩ := point_estimate_within x y x_eval bandwidth c c x.length x_eval.length j
    hn hb hj (fun i hi => getD_within_of_mem y c c hy' i (by omega))
  exact ⟨le_antisymm h2 h1, le_antisymm h4 h3, le_antisymm h6 h5⟩

theorem constant_y_collapses_interval_witness :
    ∃ y_pred lower upper : List ℝ,
      field (nadaraya_watson Real.exp Real.sqrt Real.pi rotating_sample [1, 2, 4] [7, 7, 7]
        [0, 3] 2 4 0.95 (0 : Nat)).1 "y_pred" = some y_pred ∧
      field (nadaraya_watson Real.exp Real.sqrt Real.pi rotating_sample [1, 2, 4] [7, 7, 7]
        [0, 3] 2 4 0.95 (0 : Nat)).1 "lower" = some lower ∧
      field (nadaraya_watson Real.exp Real.sqrt Real.pi rotating_sample [1, 2, 4] [7, 7, 7]
        [0, 3] 2 4 0.95 (0 : Nat)).1 "upper" = some upper ∧
      ∀ j, j < ([0, 3] : List ℝ).length →
        lower.getD j 0 = 7 ∧ upper.getD j 0 = 7 ∧ y_pred.getD j 0 = 7 :=
  constant_y_collapses_interval rotating_sample 7 [1, 2, 4] [7, 7, 7] [0, 3] 2 4 0.95 0 rfl
    (by simp) (by simp) (by norm_num) (by norm_num) (by norm_num) (by simp) (by decide)
    rotating_sample_in_range

end IntervalFurther

/-! ## Where `double` departs from the real numbers -/

section DoubleBehaviour

theorem confidence_bounds_fl_id (M : List (List ℝ)) (m : Nat) (n_boot : Int)
    (conf_level : ℝ) :
    confidence_bounds_fl id M m n_boot conf_level = confidence_bounds M m n_boot conf_level := by
  simp only [confidence_bounds_fl, confidence_bounds, lower_index_fl, upper_index_fl,
    lower_index, upper_index, id]

theorem validate_num (exp sqrt : ℝ → ℝ) (pi : ℝ) {σ : Type}
    (sample : Nat → Nat → σ → List Int × σ) (x y x_eval : List ℝ) (bandwidth : ℝ)
    (n_boot : Int) (conf_level : ℝ) (rng : σ) :
    validate x y x_eval (.num bandwidth) (.num conf_level)
      = match (nadaraya_watson exp sqrt pi sample x y x_eval bandwidth n_boot conf_level
          rng).1 with
        | .error e => some e
        | .ok _ => none := by
  unfold validate nadaraya_watson
  simp only [Dbl.le_const, Dbl.ge_const, Bool.or_eq_true, decide_eq_true_eq]
  split_ifs <;> rfl

/-- C3, as stated, fails when the kernel weight underflows: with `x = [10]`, `y = [-3]`,
`x_eval = [0, 50]` and `bandwidth = 0.5` the argument of `exp` at the second point is
`-3200`, `std::exp` returns `0`, the total weight is `0` and the prediction there is the
quotient `0 / 0`, not `y[0] = -3`. -/
theorem single_observation_fails_on_underflow :
    (-0.5 * ((10 - 50) / 0.5) * ((10 - 50) / 0.5) : ℝ) = -3200 ∧
    underflowing Real.exp (-3200) = 0 ∧
    accumulate (underflowing Real.exp) (1.0 / (0.5 * Real.sqrt (2 * Real.pi))) 0.5
      [10] [-3] 1 50 = (0, 0) ∧
    ∃ y_pred : List ℝ,
      field (nadaraya_watson (underflowing Real.exp) Real.sqrt Real.pi rotating_sample
        [10] [-3] [0, 50] 0.5 0 0.95 (0 : Nat)).1 "y_pred" = some y_pred ∧
      y_pred.getD 1 0 ≠ -3 := by
  have harg : (-0.5 * ((10 - 50) / 0.5) * ((10 - 50) / 0.5) : ℝ) = -3200 := by norm_num
  have hexp : underflowing Real.exp (-3200) = 0 := by
    unfold underflowing
    rw [if_pos (by norm_num)]
  have hacc : accumulate (underflowing Real.exp) (1.0 / (0.5 * Real.sqrt (2 * Real.pi))) 0.5
      [10] [-3] 1 50 = (0, 0) := by
    have hsq : (-0.5 * ((10 - 50) / 0.5) ^ 2 : ℝ) = -3200 := by norm_num
    rw [accumulate_eq_sum]
    simp only [Finset.sum_range_one, gaussian_weight, List.getD_cons_zero, hsq, hexp]
    simp
  refine ⟨harg, hexp, hacc, _,
    field_y_pred_of_valid (underflowing Real.exp) Real.sqrt Real.pi rotating_sample [10] [-3]
      [0, 50] 0.5 0 0.95 0 rfl (by norm_num) (by norm_num) (by norm_num) (by simp), ?_⟩
  rw [point_estimate_getD _ _ _ _ _ _ _ _ 1 (by simp)]
  have h50 : ([0, 50] : List ℝ).getD 1 0 = 50 := rfl
  have hl : ([10] : List ℝ).length = 1 := rfl
  rw [h50, hl, hacc]
  norm_num

end DoubleBehaviour

end NadarayaWatson
